import Mathlib

/-!
# Verification of the saico task/context engine

Shallow embedding of the saico repository (Itask cooperative task runtime,
Context conversation engine, Sid session serialization) together with proofs
about the embedded operations.

Conventions used throughout the embedding:
* JavaScript values that the code inspects are modelled by small inductive
  types (`JsVal`, `JsonV`); JS truthiness is made explicit.
* An `Error` object is represented by its `message` string, which is the only
  field the code reads (`error.message === 'cancelled'`).
* Asynchronous steps are modelled by their settled outcome (`StepOutcome`):
  a synchronous return, a synchronous throw, a promise resolution or a promise
  rejection.  A returned child task behaves like the promise case in the
  source, so it is covered by `resolved`/`rejected`.
* External collaborators (the chat backend, the tool handler, the token
  counter) are oracle parameters; invocations are recorded as events.
-/

namespace Saico

/-- A JavaScript runtime value as far as the task runner inspects it:
`undefined`, a string, a number, or an `Error` carried by its message. -/
inductive JsVal where
  | undef
  | str (s : String)
  | num (n : Int)
  | errv (msg : String)
deriving DecidableEq

/-- Settled outcome of invoking one state function: synchronous return value,
synchronous throw, resolved promise, or rejected promise.  (A returned child
`Itask` is awaited exactly like a promise in `_run`, so it is represented by
the `resolved`/`rejected` cases.) -/
inductive StepOutcome where
  | sync (v : JsVal)
  | thrown (e : String)
  | resolved (v : JsVal)
  | rejected (e : String)
deriving DecidableEq

/-- `parse_state_type` result record (src/test.js lines 323-357). -/
structure StateType where
  label : Option String := none
  try_catch : Bool := false
  is_catch : Bool := false
  is_finally : Bool := false
  is_cancel : Bool := false
  sig : Bool := false
  aux : Bool := false
deriving DecidableEq

/-- JavaScript `String.split` with a single-character separator, on character
lists (the source splits names only on the one-character separators `$` and
`_`).  `"a$b"` splits to `["a","b"]`, `"a"` to `["a"]`, `"a$$b"` to
`["a","","b"]`, matching JS. -/
def splitOnChar (sep : Char) : List Char → List (List Char)
  | [] => [[]]
  | c :: rest =>
    if c = sep then [] :: splitOnChar sep rest
    else
      match splitOnChar sep rest with
      | [] => [[c]]
      | tok :: toks => (c :: tok) :: toks

/-- The modifier loop of `parse_state_type`: walks the tokens left of `$`
(split on underscores).  `try` sets `try_catch` and consumes an immediately
following `catch` token; `catch`, `finally`/`ensure` and `cancel` set their
flags; unknown tokens are ignored.  The `skipCatch` flag encodes the source's
`j++` after a `try`: it is set exactly when the previous token was `try`, in
which case an immediately following `catch` token is consumed without
effect. -/
def parseMods : List (List Char) → Bool → StateType → StateType
  | [], _, t => t
  | tok :: rest, skipCatch, t =>
    if skipCatch && tok = "catch".data then parseMods rest false t
    else if tok = "try".data then parseMods rest true { t with try_catch := true }
    else if tok = "catch".data then parseMods rest false { t with is_catch := true }
    else if tok = "finally".data then parseMods rest false { t with is_finally := true }
    else if tok = "ensure".data then parseMods rest false { t with is_finally := true }
    else if tok = "cancel".data then parseMods rest false { t with is_cancel := true }
    else parseMods rest false t

/-- `parse_state_type` on a function name (src/test.js lines 323-357): a name
without `$` is just a label; otherwise the part right of the first `$` is the
label and the part left of it is an underscore-separated modifier list.
Finally `sig` and `aux` are derived from the flags. -/
def parse_state_type (name : String) : StateType :=
  let base : StateType := {}
  if name = "" then base
  else
    let parts := splitOnChar '$' name.data
    let t :=
      match parts with
      | [] => base
      | [single] => { base with label := if single = [] then none else some (String.mk single) }
      | p0 :: p1 :: _ =>
        let t := { base with label := if p1 = [] then none else some (String.mk p1) }
        parseMods (splitOnChar '_' p0) false t
    { t with
      sig := t.is_catch || t.is_finally || t.is_cancel,
      aux := t.is_catch || t.is_finally || t.is_cancel }

/-- One entry of a task's state list: the state function (by its settled
outcome on a given argument) paired with its parsed type.  The source keeps
the parallel arrays `funcs` and `states`, built together in the constructor
(`this.states = this.funcs.map(fn => parse_state_type(fn))`). -/
structure StepEntry where
  fn : JsVal → StepOutcome
  stype : StateType

/-- The mutable task state that `_run`, `_ecancel` and `_complete_internal`
operate on (fields of `Itask` relevant to the state loop). -/
structure TaskRun where
  entries : List StepEntry
  cur : Nat
  error : Option String
  retval : JsVal
  completed : Bool

/-- The parsed state list (`this.states`). -/
def TaskRun.states (t : TaskRun) : List StateType := t.entries.map (·.stype)

/-- `this._cancel_state_idx`: index of the first cancel-marked state, if any
(`this.states.findIndex(s => s.cancel)`, with `-1` modelled as `none`). -/
def cancelIdx (t : TaskRun) : Option Nat :=
  t.states.findIdx? (·.is_cancel)

/-- The argument passed to each state function: `this.error || this.retval`
(an `Error` object is always truthy). -/
def argOf (t : TaskRun) : JsVal :=
  match t.error with
  | some e => .errv e
  | none => t.retval

/-- `_next_non_aux` helper loop: starting at `i`, skip aux states.  The fuel
is bounded by the list length in `next_non_aux`. -/
def nextNonAuxGo (states : List StateType) : Nat → Nat → Nat
  | 0, i => i
  | fuel + 1, i =>
    match states.get? i with
    | some s => if s.is_catch || s.is_finally || s.is_cancel then nextNonAuxGo states fuel (i + 1) else i
    | none => i

/-- `Itask.prototype._next_non_aux` (src/test.js lines 605-609): the first
index after `cur` that is not catch/finally/cancel (or the length if none). -/
def next_non_aux (t : TaskRun) (cur : Nat) : Nat :=
  nextNonAuxGo t.states t.states.length (cur + 1)

/-- `_next_error_handler` helper loop. -/
def nextErrHandlerGo (states : List StateType) : Nat → Nat → Option Nat
  | 0, _ => none
  | fuel + 1, i =>
    match states.get? i with
    | some s => if s.is_catch then some i else nextErrHandlerGo states fuel (i + 1)
    | none => none

/-- `Itask.prototype._next_error_handler` (src/test.js lines 612-617): the
first catch state strictly after `cur`, `none` for `-1`. -/
def next_error_handler (t : TaskRun) (cur : Nat) : Option Nat :=
  nextErrHandlerGo t.states t.states.length (cur + 1)

/-- Error routing at the end of a loop iteration (src/test.js lines 530-542):
a `cancelled` error jumps to an unvisited cancel state; otherwise advance to
the next catch state, or break the loop (`true` = break). -/
def routeErr (t : TaskRun) (e : String) : TaskRun × Bool :=
  match cancelIdx t with
  | some c =>
    if e = "cancelled" ∧ t.cur < c then ({ t with cur := c }, false)
    else
      match next_error_handler t t.cur with
      | some i => ({ t with cur := i }, false)
      | none => (t, true)
  | none =>
    match next_error_handler t t.cur with
    | some i => ({ t with cur := i }, false)
    | none => (t, true)

/-- Tail of the synchronous-value path of an iteration (src/test.js lines
519-543): a catch or cancel state clears the error; with no error the return
value becomes `retval` and the cursor advances past aux states; otherwise the
error is routed. -/
def syncAdvance (t : TaskRun) (stype : StateType) (rv : JsVal) : TaskRun × Bool :=
  match (if stype.is_cancel then none else if stype.is_catch then none else t.error : Option String) with
  | none => ({ t with error := none, retval := rv, cur := next_non_aux t t.cur }, false)
  | some e => routeErr { t with error := some e } e

/-- One iteration of the `while` loop in `_run` (src/test.js lines 436-545):
`none` when the loop condition fails, otherwise the new task state, the break
flag, and the index of the state that was executed. -/
def iterOnce (t : TaskRun) : Option (TaskRun × Bool × Nat) :=
  if t.completed then none
  else
    match t.entries.get? t.cur with
    | none => none
    | some entry =>
      let idx := t.cur
      match entry.fn (argOf t) with
      | .sync v => some ((syncAdvance t entry.stype v).1, (syncAdvance t entry.stype v).2, idx)
      | .thrown e =>
        let t := { t with error := some e }
        some ((syncAdvance t entry.stype .undef).1, (syncAdvance t entry.stype .undef).2, idx)
      | .resolved v =>
        some ({ t with retval := v, error := none, cur := next_non_aux t t.cur }, false, idx)
      | .rejected e =>
        let t := { t with error := some e }
        some ((routeErr t e).1, (routeErr t e).2, idx)

/-- The `while` loop of `_run`, with fuel; returns the final state and the
trace of executed state indices. -/
def runLoop : Nat → TaskRun → TaskRun × List Nat
  | 0, t => (t, [])
  | fuel + 1, t =>
    match iterOnce t with
    | none => (t, [])
    | some (t1, brk, idx) =>
      if brk then (t1, [idx])
      else
        let r := runLoop fuel t1
        (r.1, idx :: r.2)

/-- The finally-state pass after the loop (src/test.js lines 548-574): if a
finally state exists and the task is not completed, run it; its synchronous or
resolved value is discarded, while a throw or rejection overrides the error. -/
def runFinally (t : TaskRun) (trace : List Nat) : TaskRun × List Nat :=
  match t.entries.findIdx? (·.stype.is_finally) with
  | none => (t, trace)
  | some i =>
    if t.completed then (t, trace)
    else
      match t.entries.get? i with
      | none => (t, trace)
      | some entry =>
        match entry.fn (argOf t) with
        | .thrown e => ({ t with error := some e }, trace ++ [i])
        | .rejected e => ({ t with error := some e }, trace ++ [i])
        | _ => (t, trace ++ [i])

/-- `_complete_internal` effect on the loop state (src/test.js lines 620-653):
mark completed.  (Callback dispatch and registry cleanup do not touch the
fields modelled here and invoke no state function.) -/
def completeTask (t : TaskRun) : TaskRun :=
  { t with completed := true }

/-- `Itask.prototype._run` (src/test.js lines 431-602): the state loop, then
the finally state, then completion.  Waiting for children is a real-time race
that touches no modelled field.  Returns the final state and the trace of
executed state indices. -/
def runTask (fuel : Nat) (t : TaskRun) : TaskRun × List Nat :=
  let r := runLoop fuel t
  let r2 := runFinally r.1 r.2
  (completeTask r2.1, r2.2)

/-- The state mutations `_ecancel` performs synchronously on a non-completed
task (src/test.js lines 697-713): set the error to the cancellation sentinel
and relocate the cursor to the first cancel state if one exists
(`Math.max(0, idx)` is the index itself for a natural number). -/
def ecancelRelocate (t : TaskRun) : TaskRun :=
  if t.completed then t
  else
    match cancelIdx t with
    | some c => { t with error := some "cancelled", cur := c }
    | none => { t with error := some "cancelled" }

/-- `_ecancel` on an idle task with no pending `_run` (src/test.js lines
715-744): after the synchronous state updates, the scheduled finalize path
waits for children and calls `_complete_internal`.  No state function is ever
invoked on this path, so the execution trace is empty. -/
def cancelIdleNeverRun (t : TaskRun) : TaskRun × List Nat :=
  (completeTask (ecancelRelocate t), [])

/-- The concrete two-step task of the C1 scenario: a first plain step that
throws and a second step declared as a catch step (written
`function catch$handler(){ return 'caught' }` in the repository's tests). -/
def catchScenarioTask : TaskRun :=
  { entries :=
      [ { fn := fun _ => .thrown "test", stype := parse_state_type "main" },
        { fn := fun _ => .sync (.str "caught"), stype := parse_state_type "catch$handler" } ],
    cur := 0, error := none, retval := .undef, completed := false }

/-- C1: For a task constructed with exactly the two state steps
`[main(){throw}, catch(){return 'caught'}]` — a first non-auxiliary step that
throws and a second step declared as a catch step — after the task settles,
its retval equals 'caught' and its error is undefined. -/
theorem catch_scenario_settles_caught :
    (runTask 4 catchScenarioTask).1.retval = .str "caught" ∧
    (runTask 4 catchScenarioTask).1.error = none ∧
    (runTask 4 catchScenarioTask).1.completed = true := by
  decide

/-! ### Cursor monotonicity of the run loop

The loop only ever moves the cursor forward: normal advancement skips aux
states ahead of the cursor, catch routing looks strictly after it, and the
cancellation jump in `routeErr` fires only when the cursor is strictly before
the cancel index.  Hence an index the cursor has passed is never executed
again. -/

theorem nextNonAuxGo_le (states : List StateType) (fuel : Nat) :
    ∀ i, i ≤ nextNonAuxGo states fuel i := by
  induction fuel with
  | zero => intro i; exact Nat.le_refl i
  | succ n ih =>
    intro i
    simp only [nextNonAuxGo]
    cases h : states.get? i with
    | none => exact Nat.le_refl i
    | some s =>
      by_cases hx : (s.is_catch || s.is_finally || s.is_cancel) = true
      · simp only [hx, if_true]
        exact Nat.le_trans (Nat.le_succ i) (ih (i + 1))
      · simp only [hx, if_false]
        exact Nat.le_refl i

theorem cur_lt_next_non_aux (t : TaskRun) (cur : Nat) : cur < next_non_aux t cur :=
  Nat.lt_of_lt_of_le (Nat.lt_succ_self cur)
    (nextNonAuxGo_le t.states t.states.length (cur + 1))

theorem nextErrHandlerGo_le (states : List StateType) (fuel : Nat) :
    ∀ i j, nextErrHandlerGo states fuel i = some j → i ≤ j := by
  induction fuel with
  | zero => intro i j h; simp [nextErrHandlerGo] at h
  | succ n ih =>
    intro i j h
    simp only [nextErrHandlerGo] at h
    cases hg : states.get? i with
    | none => rw [hg] at h; exact absurd h (by simp)
    | some s =>
      rw [hg] at h
      by_cases hx : s.is_catch = true
      · simp only [hx, if_true, Option.some.injEq] at h
        omega
      · simp only [hx, if_false] at h
        exact Nat.le_trans (Nat.le_succ i) (ih (i + 1) j h)

theorem cur_lt_next_error_handler (t : TaskRun) (cur j : Nat)
    (h : next_error_handler t cur = some j) : cur < j :=
  Nat.lt_of_lt_of_le (Nat.lt_succ_self cur)
    (nextErrHandlerGo_le t.states t.states.length (cur + 1) j h)

theorem routeErr_spec (t : TaskRun) (e : String) :
    (routeErr t e).1.entries = t.entries ∧
    ((routeErr t e).2 = false → t.cur < (routeErr t e).1.cur) := by
  unfold routeErr
  cases hci : cancelIdx t with
  | some c =>
    simp only []
    by_cases hj : e = "cancelled" ∧ t.cur < c
    · rw [if_pos hj]
      exact ⟨rfl, fun _ => hj.2⟩
    · rw [if_neg hj]
      cases hnx : next_error_handler t t.cur with
      | some i => exact ⟨rfl, fun _ => cur_lt_next_error_handler t t.cur i hnx⟩
      | none => exact ⟨rfl, fun h => nomatch h⟩
  | none =>
    simp only []
    cases hnx : next_error_handler t t.cur with
    | some i => exact ⟨rfl, fun _ => cur_lt_next_error_handler t t.cur i hnx⟩
    | none => exact ⟨rfl, fun h => nomatch h⟩

theorem syncAdvance_spec (t : TaskRun) (stype : StateType) (rv : JsVal) :
    (syncAdvance t stype rv).1.entries = t.entries ∧
    ((syncAdvance t stype rv).2 = false → t.cur < (syncAdvance t stype rv).1.cur) := by
  unfold syncAdvance
  cases hm : (if stype.is_cancel then none else if stype.is_catch then none else t.error : Option String) with
  | none => exact ⟨rfl, fun _ => cur_lt_next_non_aux _ _⟩
  | some e => exact ⟨(routeErr_spec _ e).1, (routeErr_spec _ e).2⟩

theorem iterOnce_spec (t t1 : TaskRun) (brk : Bool) (idx : Nat)
    (h : iterOnce t = some (t1, brk, idx)) :
    idx = t.cur ∧ t1.entries = t.entries ∧ (brk = false → t.cur < t1.cur) := by
  unfold iterOnce at h
  by_cases hc : t.completed = true
  · rw [if_pos hc] at h; exact absurd h (by simp)
  · rw [if_neg hc] at h
    cases hg : t.entries.get? t.cur with
    | none => rw [hg] at h; exact absurd h (by simp)
    | some entry =>
      rw [hg] at h
      simp only [] at h
      cases ho : entry.fn (argOf t) with
      | sync v =>
        rw [ho] at h
        simp only [Option.some.injEq, Prod.mk.injEq] at h
        obtain ⟨h1, h2, h3⟩ := h
        subst h1; subst h2; subst h3
        exact ⟨rfl, (syncAdvance_spec t entry.stype v).1,
          (syncAdvance_spec t entry.stype v).2⟩
      | thrown e =>
        rw [ho] at h
        simp only [Option.some.injEq, Prod.mk.injEq] at h
        obtain ⟨h1, h2, h3⟩ := h
        subst h1; subst h2; subst h3
        exact ⟨rfl, (syncAdvance_spec _ entry.stype .undef).1,
          (syncAdvance_spec _ entry.stype .undef).2⟩
      | resolved v =>
        rw [ho] at h
        simp only [Option.some.injEq, Prod.mk.injEq] at h
        obtain ⟨h1, h2, h3⟩ := h
        subst h1; subst h2; subst h3
        exact ⟨rfl, rfl, fun _ => cur_lt_next_non_aux _ _⟩
      | rejected e =>
        rw [ho] at h
        simp only [Option.some.injEq, Prod.mk.injEq] at h
        obtain ⟨h1, h2, h3⟩ := h
        subst h1; subst h2; subst h3
        exact ⟨rfl, (routeErr_spec _ e).1, (routeErr_spec _ e).2⟩

theorem runLoop_trace_ge (fuel : Nat) :
    ∀ t i, i ∈ (runLoop fuel t).2 → t.cur ≤ i := by
  induction fuel with
  | zero => intro t i h; simp [runLoop] at h
  | succ n ih =>
    intro t i h
    simp only [runLoop] at h
    cases hit : iterOnce t with
    | none => rw [hit] at h; simp at h
    | some r =>
      obtain ⟨t1, brk, idx⟩ := r
      rw [hit] at h
      obtain ⟨hidx, _, hlt⟩ := iterOnce_spec t t1 brk idx hit
      by_cases hb : brk = true
      · rw [hb] at h; simp at h
        subst h; exact Nat.le_of_eq hidx.symm
      · rw [Bool.not_eq_true] at hb
        rw [hb] at h; simp at h
        rcases h with h | h
        · subst h; exact Nat.le_of_eq hidx.symm
        · exact Nat.le_trans (Nat.le_of_lt (hlt hb)) (ih t1 i h)

theorem runLoop_entries (fuel : Nat) :
    ∀ t, (runLoop fuel t).1.entries = t.entries := by
  induction fuel with
  | zero => intro t; simp [runLoop]
  | succ n ih =>
    intro t
    simp only [runLoop]
    cases hit : iterOnce t with
    | none => rfl
    | some r =>
      obtain ⟨t1, brk, idx⟩ := r
      obtain ⟨_, hent, _⟩ := iterOnce_spec t t1 brk idx hit
      by_cases hb : brk = true
      · rw [hb]; simpa using hent
      · rw [Bool.not_eq_true] at hb
        rw [hb]; simp only [if_false, Bool.false_eq_true]
        exact (ih t1).trans hent

theorem runFinally_trace (t : TaskRun) (trace : List Nat) :
    (runFinally t trace).2 = trace ∨
    ∃ fidx, t.entries.findIdx? (·.stype.is_finally) = some fidx ∧
      (runFinally t trace).2 = trace ++ [fidx] := by
  unfold runFinally
  cases hf : t.entries.findIdx? (·.stype.is_finally) with
  | none => exact Or.inl rfl
  | some i =>
    simp only []
    by_cases hc : t.completed = true
    · rw [if_pos hc]; exact Or.inl rfl
    · rw [if_neg hc]
      cases hg : t.entries.get? i with
      | none => exact Or.inl rfl
      | some entry =>
        simp only []
        cases ho : entry.fn (argOf t) with
        | sync v => exact Or.inr ⟨i, rfl, rfl⟩
        | thrown e => exact Or.inr ⟨i, rfl, rfl⟩
        | resolved v => exact Or.inr ⟨i, rfl, rfl⟩
        | rejected e => exact Or.inr ⟨i, rfl, rfl⟩

/-- If a non-completed task has its first cancel state at index `c`, then in
the relocated state (`ecancelRelocate`) the cursor is at `c`, the error is the
cancellation sentinel and the entries are unchanged. -/
theorem ecancelRelocate_eq (t : TaskRun) (c : Nat)
    (hcomp : t.completed = false) (hc : cancelIdx t = some c) :
    ecancelRelocate t = { t with error := some "cancelled", cur := c } := by
  unfold ecancelRelocate
  rw [hcomp]
  simp only [Bool.false_eq_true, if_false]
  rw [hc]

/-- The element found by `findIdx?` satisfies the predicate and is in range. -/
theorem findIdx?_pred_at {α : Type} (l : List α) (p : α → Bool) (i : Nat)
    (h : l.findIdx? p = some i) : ∃ hlt : i < l.length, p (l.get ⟨i, hlt⟩) = true := by
  rw [List.findIdx?_eq_some_iff_getElem] at h
  obtain ⟨hlt, hp, _⟩ := h
  exact ⟨hlt, by simpa [List.get_eq_getElem] using hp⟩

/-- The state at the first cancel index is cancel-marked and in range. -/
theorem cancelIdx_spec (t : TaskRun) (c : Nat) (hc : cancelIdx t = some c) :
    ∃ hlt : c < t.entries.length, (t.entries.get ⟨c, hlt⟩).stype.is_cancel = true := by
  unfold cancelIdx at hc
  rw [List.findIdx?_eq_some_iff_getElem] at hc
  obtain ⟨hlt, hpred, _⟩ := hc
  have hlen : t.states.length = t.entries.length := by
    simp [TaskRun.states]
  refine ⟨hlen ▸ hlt, ?_⟩
  have := hpred
  simp only [TaskRun.states, List.getElem_map] at this
  simpa [List.get_eq_getElem] using this

/-- On a cancel-marked state the synchronous-path tail always clears the error
and advances. -/
theorem syncAdvance_cancel (t : TaskRun) (stype : StateType) (rv : JsVal)
    (h : stype.is_cancel = true) :
    syncAdvance t stype rv =
      ({ t with error := none, retval := rv, cur := next_non_aux t t.cur }, false) := by
  simp [syncAdvance, h]

/-- C2 (amended): if a non-completed task whose first cancel-marked state is
at index `c` is cancelled, and the task's state loop then begins an iteration
at the relocated cursor (as happens for a task whose `_run` is still pending),
the cancel step executes exactly once in the whole remaining run, and —
provided the cancel step does not return a rejecting promise — the task's
error is undefined immediately after that step. -/
theorem cancel_step_runs_once_from_relocated_loop
    (t : TaskRun) (c : Nat) (fuel : Nat)
    (hcomp : t.completed = false)
    (hc : cancelIdx t = some c)
    (hen : ∀ en, t.entries.get? c = some en →
      en.stype.is_finally = false ∧ ∀ e, en.fn (.errv "cancelled") ≠ .rejected e)
    (hfuel : 1 ≤ fuel) :
    (∃ t1, iterOnce (ecancelRelocate t) = some (t1, false, c) ∧ t1.error = none) ∧
    (runTask fuel (ecancelRelocate t)).2.count c = 1 := by
  obtain ⟨hlt, hcanc⟩ := cancelIdx_spec t c hc
  have hg : t.entries.get? c = some (t.entries.get ⟨c, hlt⟩) := by
    rw [List.get?_eq_getElem?, List.getElem?_eq_getElem hlt, List.get_eq_getElem]
  obtain ⟨hfin, hnr⟩ := hen _ hg
  have hrel : ecancelRelocate t = { t with error := some "cancelled", cur := c } :=
    ecancelRelocate_eq t c hcomp hc
  have hiter : ∃ t1, iterOnce (ecancelRelocate t) = some (t1, false, c) ∧ t1.error = none := by
    rw [hrel]
    unfold iterOnce
    rw [if_neg (show ¬({ t with error := some "cancelled", cur := c } : TaskRun).completed = true by
      simp [hcomp])]
    rw [show ({ t with error := some "cancelled", cur := c } : TaskRun).entries.get?
        ({ t with error := some "cancelled", cur := c } : TaskRun).cur
        = some (t.entries.get ⟨c, hlt⟩) from hg]
    simp only []
    cases ho : (t.entries.get ⟨c, hlt⟩).fn
        (argOf { t with error := some "cancelled", cur := c }) with
    | sync v =>
      simp only []
      rw [syncAdvance_cancel _ _ _ hcanc]
      exact ⟨_, rfl, rfl⟩
    | thrown e =>
      simp only []
      rw [syncAdvance_cancel _ _ _ hcanc]
      exact ⟨_, rfl, rfl⟩
    | resolved v =>
      simp only []
      exact ⟨_, rfl, rfl⟩
    | rejected e => exact absurd ho (hnr e)
  obtain ⟨t1, hite, ht1err⟩ := hiter
  refine ⟨⟨t1, hite, ht1err⟩, ?_⟩
  obtain ⟨n, rfl⟩ : ∃ n, fuel = n + 1 := ⟨fuel - 1, by omega⟩
  have hspec := iterOnce_spec _ t1 false c hite
  have ht1cur : c < t1.cur := by
    have h2 := hspec.2.2 rfl
    rw [hrel] at h2
    exact h2
  have hent1 : t1.entries = t.entries := by
    have h2 := hspec.2.1
    rw [hrel] at h2
    exact h2
  have htail : (runLoop n t1).2.count c = 0 := by
    rw [List.count_eq_zero]
    intro hmem
    have := runLoop_trace_ge n t1 c hmem
    omega
  unfold runTask
  simp only [runLoop]
  rw [hite]
  simp only []
  rw [if_neg (by decide : ¬(false = true))]
  rcases runFinally_trace (runLoop n t1).1 (c :: (runLoop n t1).2) with hf | ⟨fidx, hfi, hf⟩
  · rw [hf]
    simp [List.count_cons, htail]
  · have hentloop : (runLoop n t1).1.entries = t.entries := by
      rw [runLoop_entries n t1, hent1]
    rw [hentloop] at hfi
    obtain ⟨hlt2, hp2⟩ := findIdx?_pred_at _ _ _ hfi
    have hne : c ≠ fidx := by
      intro heq
      subst heq
      have hff : (t.entries.get ⟨c, hlt⟩).stype.is_finally = true := hp2
      rw [hfin] at hff
      exact Bool.false_ne_true hff
    rw [hf, List.count_append]
    simp [List.count_cons, htail, hne]

/-- The concrete task used for the C2 counterexample and witness: a normal
first step and a cancel-marked second step (written
`function cancel$cleanup(){...}` in the repository's tests), not yet started. -/
def idleCancelTask : TaskRun :=
  { entries :=
      [ { fn := fun _ => .resolved .undef, stype := parse_state_type "main" },
        { fn := fun _ => .sync (.str "cleanup"), stype := parse_state_type "cancel$cleanup" } ],
    cur := 0, error := none, retval := .undef, completed := false }

/-- C2 counterexample: the claim is false for an idle task whose `_run` was
never invoked (a task constructed with `async: true`, as in the repository's
own cancellation tests).  `_ecancel` relocates the cursor to the unvisited
cancel step but then finalizes through the scheduled completion path, which
invokes no state function: the cancel step executes zero times — not exactly
once — and the cancellation error is never cleared (the task settles with
`error.message === 'cancelled'`, exactly what the repository test asserts). -/
theorem cancel_idle_task_skips_cancel_step :
    (cancelIdleNeverRun idleCancelTask).2.count 1 = 0 ∧
    (cancelIdleNeverRun idleCancelTask).1.error = some "cancelled" ∧
    (cancelIdleNeverRun idleCancelTask).1.cur = 1 ∧
    (cancelIdleNeverRun idleCancelTask).1.completed = true := by
  decide

/-- Witness for the amended C2 theorem at a concrete input: cancelling
`idleCancelTask` and then starting its loop runs the cancel step (index 1)
exactly once and leaves no error immediately after it. -/
theorem cancel_step_runs_once_witness :
    (∃ t1, iterOnce (ecancelRelocate idleCancelTask) = some (t1, false, 1) ∧ t1.error = none) ∧
    (runTask 5 (ecancelRelocate idleCancelTask)).2.count 1 = 1 := by
  refine cancel_step_runs_once_from_relocated_loop idleCancelTask 1 5 rfl (by decide) ?_ (by decide)
  intro en hen
  injection hen with h
  subst h
  exact ⟨by decide, fun e h => StepOutcome.noConfusion h⟩

/-! ### Context engine: data model (src/context.js)

The conversation buffer holds message envelopes
`{msg, opts, functions?, msgid, replied}`.  `msgid` is `0` or a random hex
string in the source; it is modelled as a string (`"0"` for the numeric
default).  A tool call `{id, function: {name, arguments}}` is flattened to
`{id, fname, args}`. -/

/-- A model-issued tool call: `call.id`, `call.function.name`,
`call.function.arguments`. -/
structure Call where
  id : String
  fname : String
  args : String
deriving DecidableEq

/-- A chat message as stored in the buffer and sent to the backend.  Optional
fields model keys that are present only when truthy (the source builds
messages with `...(name && { name })` spreads). -/
structure Msg where
  role : String
  content : String
  name : Option String := none
  tool_call_id : Option String := none
  tool_calls : Option (List Call) := none
deriving DecidableEq

/-- Envelope options.  `handler` is the per-message tool-handler override; the
source stores a function, which the model represents by a key resolved through
the oracle table (so that envelope equality stays decidable).
`recursive_depth` is the source's `_recursive_depth`. -/
structure Opts where
  summary : Bool := false
  noreply : Bool := false
  nofunc : Bool := false
  tag : Option String := none
  name : Option String := none
  tool_call_id : Option String := none
  handler : Option String := none
  timeout : Option Nat := none
  recursive_depth : Option Nat := none
  model : Option String := none
deriving DecidableEq

/-- A message envelope of the buffer `_msgs`. -/
structure Env where
  msg : Msg
  opts : Opts := {}
  functions : Option (List String) := none
  msgid : String := "0"
  replied : Nat := 2
deriving DecidableEq

/-- `push` on a plain message (src/context.js lines 297-300): wraps it with
empty opts, msgid `0` and replied `2`. -/
def pushMsg (buf : List Env) (m : Msg) : List Env :=
  buf ++ [{ msg := m }]

/-- The envelope created by `pushSummary` (src/context.js lines 302-305): a
user message `[SUMMARY]: …` whose opts carry the summary flag. -/
def mkSummaryEnv (s : String) : Env :=
  { msg := { role := "user", content := "[SUMMARY]: " ++ s }, opts := { summary := true } }

/-- `pushSummary` (src/context.js lines 302-305). -/
def pushSummary (buf : List Env) (s : String) : List Env :=
  buf ++ [mkSummaryEnv s]

/-- The read `m.summary` performed by `_summarizeContext` (src/context.js
lines 442-443).  Envelopes have no top-level `summary` field — the flag set by
`pushSummary` lives at `m.opts.summary` (read correctly by `getSummaries` and
`_createMsgQ`) — so this property access yields `undefined`, which is falsy. -/
def envSummaryField (_ : Env) : Bool := false

/-- The buffer partition computed at the top of `_summarizeContext`
(src/context.js lines 442-444): `keep`, `summarize` and `not_replied`.
`m.replied` is a number, truthy iff nonzero. -/
def summarizePartition (close : Bool) (msgs : List Env) :
    List Env × List Env × List Env :=
  (msgs.filter (fun m => !close && envSummaryField m),
   msgs.filter (fun m => (!close || !envSummaryField m) && m.replied != 0),
   msgs.filter (fun m => m.replied == 0))

/-- C6: the claim states that on a non-closing summarization pass the
summary-flagged envelopes (flag set by `pushSummary`) are kept in the buffer
and excluded from the summarization material.  The code instead filters on
the nonexistent field `m.summary` (the flag is at `m.opts.summary`), so a
replied summary envelope lands in the to-summarize material and the keep set
is empty: evaluating the partition of a buffer holding exactly one pushed
summary shows `keep = []` and the summary envelope inside `summarize`. -/
theorem summary_flagged_env_not_kept_on_noclose_pass :
    (summarizePartition false [mkSummaryEnv "earlier"]).1 = [] ∧
    (summarizePartition false [mkSummaryEnv "earlier"]).2.1 = [mkSummaryEnv "earlier"] ∧
    (mkSummaryEnv "earlier").opts.summary = true := by
  decide

/-! ### JSON values and external collaborators -/

/-- A JSON-like JavaScript value, used for tool-handler results and for
`JSON.stringify` calls in the source. -/
inductive JsonV where
  | jnull
  | jbool (b : Bool)
  | jnum (n : Int)
  | jstr (s : String)
  | jarr (xs : List JsonV)
  | jobj (fields : List (String × JsonV))

/-- JS truthiness of a JSON value (`null`, `false`, `0` and `""` are falsy;
every object or array is truthy). -/
def jTruthy : JsonV → Bool
  | .jnull => false
  | .jbool b => b
  | .jnum n => n != 0
  | .jstr s => s != ""
  | .jarr _ => true
  | .jobj _ => true

/-- Escaping of one character inside a JSON string literal. -/
def jsonEscapeChar (c : Char) : String :=
  if c = '"' then "\\\""
  else if c = '\\' then "\\\\"
  else if c = '\n' then "\\n"
  else String.mk [c]

/-- Escaping of a string for a JSON string literal. -/
def jsonEscape (s : String) : String :=
  String.join (s.data.map jsonEscapeChar)

mutual

/-- `JSON.stringify` of a JSON value. -/
def stringify : JsonV → String
  | .jnull => "null"
  | .jbool true => "true"
  | .jbool false => "false"
  | .jnum n => toString n
  | .jstr s => "\"" ++ jsonEscape s ++ "\""
  | .jarr xs => "[" ++ stringifyItems xs ++ "]"
  | .jobj fs => "\x7b" ++ stringifyFields fs ++ "\x7d"

/-- Comma-separated array items. -/
def stringifyItems : List JsonV → String
  | [] => ""
  | [x] => stringify x
  | x :: xs => stringify x ++ "," ++ stringifyItems xs

/-- Comma-separated object fields. -/
def stringifyFields : List (String × JsonV) → String
  | [] => ""
  | [(k, v)] => "\"" ++ jsonEscape k ++ "\":" ++ stringify v
  | (k, v) :: fs => "\"" ++ jsonEscape k ++ "\":" ++ stringify v ++ "," ++ stringifyFields fs

end

/-- The JSON encoding of a tool call (`{id, function: {name, arguments}}`). -/
def callJson (c : Call) : JsonV :=
  .jobj [("id", .jstr c.id),
         ("function", .jobj [("name", .jstr c.fname), ("arguments", .jstr c.args)])]

/-- The JSON encoding of a message: exactly the keys present on the object. -/
def msgJson (m : Msg) : JsonV :=
  .jobj ([("role", .jstr m.role), ("content", .jstr m.content)]
    ++ (match m.name with | some n => [("name", .jstr n)] | none => [])
    ++ (match m.tool_call_id with | some i => [("tool_call_id", .jstr i)] | none => [])
    ++ (match m.tool_calls with
        | some tcs => [("tool_calls", .jarr (tcs.map callJson))]
        | none => []))

/-- Observable interactions with external collaborators. -/
inductive Ev where
  | backendSend (q : List Msg)
  | handlerInvoke (fname : String) (args : String)
  | errorLog (s : String)
deriving DecidableEq

/-- The settled behaviour of one tool-handler invocation relative to its
per-call timeout: a result value, a thrown/rejected error, or no settlement
within the timeout window. -/
inductive HandlerBehavior where
  | ret (r : Option JsonV)
  | raise (msg : String)
  | hang

/-- External collaborators as deterministic oracles: the chat backend
(`openai.send`), the tool handlers (looked up by handler key, applied to the
function name and raw argument string) and the token counter
(`util.countTokens`, which the source applies to message lists, single
messages and strings). -/
structure Oracles where
  backend : List Msg → Option (List String) → Msg
  runHandler : String → String → String → HandlerBehavior
  countTokens : List Msg → Nat
  countTokensMsg : Msg → Nat
  countTokensStr : String → Nat

/-! ### Summarization (src/context.js lines 364-526)

Token-budget comparisons in the source use the float limits
`lower_limit = 0.85 × token_limit` and `upper_limit = 0.98 × token_limit`;
the model uses the mathematically exact scaled integer comparisons
(`100·tokens < 85·limit`, `100·tokens > 98·limit`, `2·tokens < limit`). -/

/-- The allowed message keys of the chunking filter (src/context.js line
482). -/
def allowedMsgKeys : List String := ["role", "content", "refusal", "name", "tool", "tool_calls"]

/-- `Object.keys(m)` for a modelled message: exactly the present fields.
Note that `tool_call_id` is not in `allowedMsgKeys`, so tool-response
messages are discarded by the chunking filter. -/
def msgKeys (m : Msg) : List String :=
  ["role", "content"]
    ++ (match m.name with | some _ => ["name"] | none => [])
    ++ (match m.tool_call_id with | some _ => ["tool_call_id"] | none => [])
    ++ (match m.tool_calls with | some _ => ["tool_calls"] | none => [])

/-- The text rendering of one message inside a chunk:
`${m.role.toUpperCase()}: ${m.content || JSON.stringify(m.tool_calls)}`
(stringifying an absent `tool_calls` yields the text `undefined`). -/
def chunkLine (m : Msg) : String :=
  m.role.toUpper ++ ": " ++
    (if m.content != "" then m.content
     else match m.tool_calls with
       | some tcs => stringify (.jarr (tcs.map callJson))
       | none => "undefined")

/-- The greedy chunk-packing loop of `_summarizeMessages` (src/context.js
lines 473-500).  Structurally invalid messages cannot arise for modelled
records (every `Msg` is a non-array object), messages with a disallowed key
or an oversized token count are dropped with a diagnostic, and — as in the
source — the message that overflows a chunk is itself dropped when the chunk
is flushed. -/
def buildChunks (o : Oracles) (token_limit : Nat) (msgs : List Msg) : List (List Msg) :=
  let r := msgs.foldl
    (fun (st : List (List Msg) × List Msg × String) m =>
      let chunks := st.1
      let chunk_msgs := st.2.1
      let chunk := st.2.2
      if (msgKeys m).any (fun k => !allowedMsgKeys.contains k) then (chunks, chunk_msgs, chunk)
      else if 100 * o.countTokensMsg m > 98 * token_limit then (chunks, chunk_msgs, chunk)
      else
        let str := chunkLine m
        if 2 * o.countTokensStr (chunk ++ str ++ "\n") < token_limit then
          (chunks, chunk_msgs ++ [m], chunk ++ str ++ "\n")
        else (chunks ++ [chunk_msgs], [], ""))
    ([], [], "")
  if r.2.1 != [] then r.1 ++ [r.2.1] else r.1

/-- The system request content of the first summarization call
(src/context.js lines 508-517). -/
def summaryPromptText (numChunks : Nat) (firstChunk : List Msg) : String :=
  "Please summarize the following conversation. The summary should be one or two paragraphs as follows:"
    ++ "- First paragraph: the purpose of the conversation and the outcome"
    ++ "- Second paragraph (optional): next steps or pending requests that should be considered"
    ++ "- Do not include system errors in the summary.\n"
    ++ "- Formulate the summary from the AI agent\x27s perspective\n"
    ++ "\nConversation:\n"
    ++ (if numChunks > 1 then
          "The conversation will be uploaded in " ++ toString numChunks
            ++ " chunks. Wait for the last one then summarize all.\nChunk 1:\n"
        else "The conversation to summarize:\n")
    ++ stringify (.jarr (firstChunk.map msgJson))

/-- The follow-up loop over chunks 1.. of `_summarizeMessages`
(src/context.js lines 520-524): each iteration sends the chunk and rebuilds
the summary from the latest reply (`i === chunks.length` is never reached
inside the loop, as in the source). -/
def summarizeChunksLoop (o : Oracles) (tag : String) (total : Nat) :
    Nat → List (List Msg) → String → String × List Ev
  | _, [], summary => (summary, [])
  | i, chunk :: rest, _ =>
    let req : List Msg :=
      [{ role := "system",
         content := "Chunk " ++ (if i = total then "last" else toString i) ++ ":\n"
           ++ stringify (.jarr (chunk.map msgJson)) }]
    let reply := o.backend req none
    let summary := "Summary of " ++ tag ++ " conversation:\n" ++ reply.content
    let r := summarizeChunksLoop o tag total (i + 1) rest summary
    (r.1, Ev.backendSend req :: r.2)

/-- `_summarizeMessages` (src/context.js lines 468-526): chunk when over the
upper limit, return `undefined` when no chunks remain, otherwise run the
backend request(s) and return the summary text. -/
def summarizeMessagesM (o : Oracles) (token_limit : Nat) (tag : String)
    (msgs : List Msg) : Option String × List Ev :=
  let tokens := o.countTokens msgs
  let chunks := if 100 * tokens > 98 * token_limit then buildChunks o token_limit msgs else [msgs]
  match chunks with
  | [] => (none, [])
  | first :: restChunks =>
    let req1 : List Msg :=
      [{ role := "system", content := summaryPromptText (restChunks.length + 1) first }]
    let reply := o.backend req1 none
    let r := summarizeChunksLoop o tag (restChunks.length + 1) 1 restChunks reply.content
    (some r.1, Ev.backendSend req1 :: r.2)

/-- A message queued by the waiting queue or the sequential queue: the
arguments of the postponed `sendMessage` call. -/
structure WaitingMsg where
  role : String
  content : String
  functions : Option (List String) := none
  opts : Opts := {}
deriving DecidableEq

/-- A depth-deferred tool call (src/context.js lines 914-918): the call, its
originating message (by msgid and opts) and the depth at which it was
deferred. -/
structure DeferredCall where
  call : Call
  origMsgid : String
  origOpts : Opts := {}
  depth : Nat := 0
deriving DecidableEq

/-- The mutable state of one `Context` (src/context.js constructor).
`tool_handler` is the context's handler key resolved through the oracles, and
`nextMsgId` models the `crypto.randomBytes` msgid generator by a counter. -/
structure CtxState where
  prompt : String := ""
  tag : String := ""
  token_limit : Nat := 1000000000
  tool_handler : String := ""
  functions : Option (List String) := none
  max_depth : Nat := 5
  max_tool_repetition : Nat := 20
  current_depth : Nat := 0
  msgs : List Env := []
  waitingQueue : List WaitingMsg := []
  active_tool_calls : List String := []
  deferred_tool_calls : List DeferredCall := []
  tool_call_sequence : List String := []
  sequential_mode : Bool := false
  processing_sequential : Bool := false
  sequential_queue : List WaitingMsg := []
  nextMsgId : Nat := 0
deriving DecidableEq

/-- The application of the summarizer's result in `_summarizeContext`
(src/context.js lines 454-463), acting on this context's buffer and on the
buffer of the target context: reset the buffer to the keep set, push a truthy
summary to the target on close (else to self), reattach the not-yet-replied
envelopes. -/
def applySummaryResult (close : Bool) (keep not_replied : List Env)
    (target : Option (List Env)) (osum : Option String) :
    List Env × Option (List Env) :=
  match osum with
  | some s =>
    if s != "" then
      if close ∧ target.isSome then
        (keep ++ not_replied, target.map (fun tb => pushSummary tb s))
      else (pushSummary keep s ++ not_replied, target)
    else (keep ++ not_replied, target)
  | none => (keep ++ not_replied, target)

/-- `_summarizeContext` (src/context.js lines 441-466), continued: partition
the buffer, return unchanged when there is nothing to summarize, else
summarize the material (prefixed by the system prompt on close) and apply the
result. -/
def summarizeContextM (o : Oracles) (close : Bool) (prompt : String) (tag : String)
    (token_limit : Nat) (self : List Env) (target : Option (List Env)) :
    List Env × Option (List Env) × List Ev :=
  let keep := (summarizePartition close self).1
  let summarize := (summarizePartition close self).2.1
  let not_replied := (summarizePartition close self).2.2
  if summarize.length = 0 then (self, target, [])
  else
    let material := (if close then [({ role := "system", content := prompt } : Msg)] else [])
      ++ summarize.map (·.msg)
    let r := summarizeMessagesM o token_limit tag material
    let a := applySummaryResult close keep not_replied target r.1
    (a.1, a.2, r.2)

/-- `summarizeMessages` (src/context.js lines 364-369): a no-op below the
lower limit, else a non-closing summarization pass on the own buffer. -/
def summarizeMessagesIfNeeded (o : Oracles) (st : CtxState) : CtxState × List Ev :=
  let tokens := o.countTokens (st.msgs.map (·.msg))
  if 100 * tokens < 85 * st.token_limit then (st, [])
  else
    let r := summarizeContextM o false st.prompt st.tag st.token_limit st.msgs none
    ({ st with msgs := r.1 }, r.2.2)

/-- `close()` (src/context.js lines 371-401) given the parent context (found
by `getParentContext` through the task hierarchy): migrate the waiting and
sequential queues to the parent, then run an unconditional closing
summarization whose target is the parent.  The sequential-mode drain at the
top of `close` is a real-time polling wait that touches none of the modelled
fields and is omitted. -/
def closeM (o : Oracles) (st : CtxState) (parent : Option CtxState) :
    CtxState × Option CtxState × List Ev :=
  let migrated : CtxState × Option CtxState :=
    match parent with
    | some p =>
      ({ st with waitingQueue := [], sequential_queue := [] },
       some { p with waitingQueue := p.waitingQueue ++ st.waitingQueue,
                     sequential_queue := p.sequential_queue ++ st.sequential_queue })
    | none => (st, none)
  let st1 := migrated.1
  let r := summarizeContextM o true st1.prompt st1.tag st1.token_limit st1.msgs
    (migrated.2.map (·.msgs))
  ({ st1 with msgs := r.1 },
   match migrated.2, r.2.1 with
   | some p, some tb => some { p with msgs := tb }
   | some p, none => some p
   | none, _ => none,
   r.2.2)

/-- On a closing pass the keep set is empty (for any buffer: the filter reads
the nonexistent `m.summary`, and the close flag also falsifies it). -/
theorem summarizePartition_close_keep (msgs : List Env) :
    (summarizePartition true msgs).1 = [] := by
  simp [summarizePartition, envSummaryField]

/-- A not-yet-replied envelope is in the `not_replied` part. -/
theorem mem_not_replied_of (msgs : List Env) (m : Env) (hm : m ∈ msgs)
    (h0 : m.replied = 0) : m ∈ (summarizePartition true msgs).2.2 := by
  simp [summarizePartition, List.mem_filter, hm, h0]

/-- A not-yet-replied envelope is never in the to-summarize part. -/
theorem not_mem_summarize_of (msgs : List Env) (m : Env) (h0 : m.replied = 0) :
    m ∉ (summarizePartition true msgs).2.1 := by
  intro hmem
  simp only [summarizePartition] at hmem
  rw [List.mem_filter] at hmem
  have h2 := hmem.2
  rw [h0] at h2
  simp at h2

/-- Characterization of `applySummaryResult` on a closing pass with an empty
keep set: the target buffer gains at most one new summary envelope, and the
not-yet-replied envelopes all reappear in the own buffer. -/
theorem applySummaryResult_close_spec (selfBefore keep not_replied : List Env)
    (target : Option (List Env)) (osum : Option String) (hkeep : keep = []) :
    ∃ add : List Env, (add = [] ∨ ∃ s, add = [mkSummaryEnv s]) ∧
      (match target, (applySummaryResult true keep not_replied target osum).2 with
       | some tb, some tb2 => tb2 = tb ++ add
       | none, none =>
         (applySummaryResult true keep not_replied target osum).1 = selfBefore ∨
         (applySummaryResult true keep not_replied target osum).1 = add ++ not_replied
       | _, _ => False) ∧
      ∀ m ∈ not_replied, m ∈ (applySummaryResult true keep not_replied target osum).1 := by
  subst hkeep
  cases osum with
  | none =>
    cases target with
    | some tb => exact ⟨[], Or.inl rfl, by simp [applySummaryResult], fun m hm => hm⟩
    | none => exact ⟨[], Or.inl rfl, Or.inr rfl, fun m hm => hm⟩
  | some s =>
    by_cases hne : (s != "") = true
    · cases target with
      | some tb =>
        have happ : applySummaryResult true [] not_replied (some tb) (some s)
            = ([] ++ not_replied, some (pushSummary tb s)) := by
          simp [applySummaryResult, hne]
        refine ⟨[mkSummaryEnv s], Or.inr ⟨s, rfl⟩, ?_, ?_⟩
        · rw [happ]
          simp [pushSummary]
        · intro m hm
          rw [happ]
          exact hm
      | none =>
        have happ : applySummaryResult true [] not_replied none (some s)
            = (pushSummary [] s ++ not_replied, none) := by
          simp [applySummaryResult, hne]
        refine ⟨[mkSummaryEnv s], Or.inr ⟨s, rfl⟩, ?_, ?_⟩
        · rw [happ]
          exact Or.inr (by simp [pushSummary])
        · intro m hm
          rw [happ]
          simp [pushSummary, hm]
    · have happ : applySummaryResult true [] not_replied target (some s)
          = ([] ++ not_replied, target) := by
        simp [applySummaryResult, hne]
      cases target with
      | some tb =>
        refine ⟨[], Or.inl rfl, ?_, ?_⟩
        · rw [happ]
          simp
        · intro m hm
          rw [happ]
          exact hm
      | none =>
        refine ⟨[], Or.inl rfl, ?_, ?_⟩
        · rw [happ]
          exact Or.inr rfl
        · intro m hm
          rw [happ]
          exact hm

/-- Characterization of a closing `_summarizeContext` pass: the target buffer
(the parent's on close, if any, else the own one) gains at most one new
summary envelope, and every not-yet-replied envelope stays in the own
buffer. -/
theorem summarizeContext_close_spec (o : Oracles) (prompt tag : String) (tl : Nat)
    (self : List Env) (target : Option (List Env)) :
    ∃ add : List Env, (add = [] ∨ ∃ s, add = [mkSummaryEnv s]) ∧
      (match target, (summarizeContextM o true prompt tag tl self target).2.1 with
       | some tb, some tb2 => tb2 = tb ++ add
       | none, none =>
         (summarizeContextM o true prompt tag tl self target).1 = self ∨
         (summarizeContextM o true prompt tag tl self target).1
           = add ++ (summarizePartition true self).2.2
       | _, _ => False) ∧
      ∀ m ∈ self, m.replied = 0 →
        m ∈ (summarizeContextM o true prompt tag tl self target).1 := by
  unfold summarizeContextM
  simp only []
  by_cases h0 : ((summarizePartition true self).2.1).length = 0
  · rw [if_pos h0]
    refine ⟨[], Or.inl rfl, ?_, fun m hm _ => hm⟩
    cases target with
    | some tb => simp
    | none => exact Or.inl rfl
  · rw [if_neg h0]
    obtain ⟨add, hadd, hmatch, hmem⟩ :=
      applySummaryResult_close_spec self (summarizePartition true self).1
        (summarizePartition true self).2.2 target
        (summarizeMessagesM o tl tag
          ((if true then [({ role := "system", content := prompt } : Msg)] else [])
            ++ ((summarizePartition true self).2.1).map (·.msg))).1
        (summarizePartition_close_keep self)
    exact ⟨add, hadd, hmatch,
      fun m hm h0m => hmem m (mem_not_replied_of self m hm h0m)⟩

/-- C5: one invocation of `close()` adds at most one new summary message to
the target context — the parent context when one exists, else the context
itself — and every not-yet-replied envelope stays in the buffer unchanged: it
is not consumed into the summarization material and reappears verbatim in the
buffer afterwards. -/
theorem close_adds_at_most_one_summary (o : Oracles) (st : CtxState)
    (parent : Option CtxState) :
    (∃ add : List Env, (add = [] ∨ ∃ s, add = [mkSummaryEnv s]) ∧
      (match parent, (closeM o st parent).2.1 with
       | some p, some p2 => p2.msgs = p.msgs ++ add
       | none, none =>
         (closeM o st parent).1.msgs = st.msgs ∨
         (closeM o st parent).1.msgs = add ++ (summarizePartition true st.msgs).2.2
       | _, _ => False)) ∧
    ∀ m ∈ st.msgs, m.replied = 0 →
      m ∈ (closeM o st parent).1.msgs ∧ m ∉ (summarizePartition true st.msgs).2.1 := by
  cases parent with
  | none =>
    obtain ⟨add, hadd, hmatch, hmem⟩ :=
      summarizeContext_close_spec o st.prompt st.tag st.token_limit st.msgs none
    refine ⟨⟨add, hadd, ?_⟩,
      fun m hm h0 => ⟨hmem m hm h0, not_mem_summarize_of st.msgs m h0⟩⟩
    cases hx : (summarizeContextM o true st.prompt st.tag st.token_limit st.msgs none).2.1 with
    | some tb2 =>
      rw [hx] at hmatch
      simp only [] at hmatch
    | none =>
      rw [hx] at hmatch
      simp only [] at hmatch
      exact hmatch
  | some p =>
    obtain ⟨add, hadd, hmatch, hmem⟩ :=
      summarizeContext_close_spec o st.prompt st.tag st.token_limit st.msgs (some p.msgs)
    refine ⟨⟨add, hadd, ?_⟩,
      fun m hm h0 => ⟨hmem m hm h0, not_mem_summarize_of st.msgs m h0⟩⟩
    cases htb : (summarizeContextM o true st.prompt st.tag st.token_limit st.msgs
        (some p.msgs)).2.1 with
    | none =>
      rw [htb] at hmatch
      simp only [] at hmatch
    | some tb2 =>
      rw [htb] at hmatch
      simp only [] at hmatch
      have hcl : (closeM o st (some p)).2.1 = some { p with
          waitingQueue := p.waitingQueue ++ st.waitingQueue,
          sequential_queue := p.sequential_queue ++ st.sequential_queue,
          msgs := tb2 } := by
        simp only [closeM, Option.map_some']
        rw [htb]
      rw [hcl]
      simp only []
      exact hmatch

/-- Stub collaborators used by concrete witnesses: a backend that always
replies with a fixed summary, a handler that returns "ok", and a zero token
counter (mirroring the repository's own test stubs). -/
def testOracles : Oracles :=
  { backend := fun _ _ => { role := "assistant", content := "summary content" },
    runHandler := fun _ _ _ => .ret (some (.jstr "ok")),
    countTokens := fun _ => 0,
    countTokensMsg := fun _ => 0,
    countTokensStr := fun _ => 0 }

/-- A not-yet-replied envelope used in witnesses. -/
def pendingEnv : Env := { msg := { role := "user", content := "Hi" }, replied := 0 }

/-- A concrete context buffer with one pending and one replied envelope. -/
def closeSelfCtx : CtxState :=
  { tag := "child",
    msgs := [pendingEnv, { msg := { role := "assistant", content := "done" }, replied := 1 }] }

/-- A concrete parent context. -/
def closeParentCtx : CtxState := { tag := "parent" }

/-- Witness for C5 at a concrete input: closing a child context with a
pending envelope keeps that envelope in the buffer and out of the
summarization material. -/
theorem close_adds_at_most_one_summary_witness :
    pendingEnv ∈ (closeM testOracles closeSelfCtx (some closeParentCtx)).1.msgs ∧
    pendingEnv ∉ (summarizePartition true closeSelfCtx.msgs).2.1 :=
  (close_adds_at_most_one_summary testOracles closeSelfCtx (some closeParentCtx)).2
    pendingEnv (by decide) rfl

/-! ### Task hierarchy and ancestor aggregation (C7)

`Itask.prototype.getAncestorContexts` (src/test.js lines 929-938) walks the
parent chain upward, unshifting each task's context, so ancestors come first.
`Context.getAncestorContexts` (src/context.js lines 72-76) filters out the
context itself; the reference inequality `ctx !== this` is modelled by value
inequality, sound for chains whose leaf context differs from every proper
ancestor context. -/

/-- A context as needed for aggregation: its prompt and its buffer. -/
structure CtxM where
  prompt : String
  msgs : List Env
deriving DecidableEq

/-- A task with an optional context and an optional parent. -/
inductive TaskM where
  | root (ctx : Option CtxM)
  | child (ctx : Option CtxM) (parent : TaskM)

/-- `getAncestorContexts` (src/test.js lines 929-938): contexts along the
path from the root down to this task, root first. -/
def TaskM.getAncestorContexts : TaskM → List CtxM
  | .root ctx => (match ctx with | some c => [c] | none => [])
  | .child ctx parent =>
    parent.getAncestorContexts ++ (match ctx with | some c => [c] | none => [])

/-- `Context.getAncestorContexts` (src/context.js lines 72-76): the task's
ancestor contexts without the context itself. -/
def ctxAncestors (t : TaskM) (self : CtxM) : List CtxM :=
  (t.getAncestorContexts).filter (fun c => c != self)

/-- The summary/system messages of a context's buffer, as collected by
`getMsgContext` (src/context.js line 538). -/
def summariesOf (c : CtxM) : List Msg :=
  (c.msgs.filter (fun m => m.opts.summary || m.msg.role == "system")).map (·.msg)

/-- The system message for a truthy prompt (`if (ctx.prompt) msgs.push(…)`). -/
def promptPart (p : String) : List Msg :=
  if p != "" then [{ role := "system", content := p }] else []

/-- One context's contribution to `getMsgContext`: its prompt, then its
summary/system messages. -/
def ctxBlock (c : CtxM) : List Msg := promptPart c.prompt ++ summariesOf c

/-- `getMsgContext` (src/context.js lines 529-558, with a falsy `add_tag`):
each ancestor's block in root-first order, then the own block. -/
def getMsgContextM (t : TaskM) (self : CtxM) : List Msg :=
  (ctxAncestors t self).flatMap ctxBlock ++ ctxBlock self

/-- Truthiness of an optional string (absent or empty is falsy). -/
def strOptTruthy : Option String → Bool
  | none => false
  | some s => s != ""

/-- The tool-call ids mentioned by `tool_calls` entries
(src/context.js lines 673-677). -/
def toolCallIds (msgs : List Msg) : List String :=
  msgs.flatMap (fun m => match m.tool_calls with | some tcs => tcs.map (·.id) | none => [])

/-- The tool-call ids answered by tool-role messages
(src/context.js lines 678-679). -/
def toolResponseIds (msgs : List Msg) : List String :=
  msgs.flatMap (fun m =>
    if m.role == "tool" && strOptTruthy m.tool_call_id then [m.tool_call_id.getD ""] else [])

/-- `_validateToolResponses` (src/context.js lines 669-719): drop tool
responses whose call id has no matching open call, strip unanswered tool
calls from assistant messages (keeping the message only if text remains). -/
def validateToolResponses (msgs : List Msg) : List Msg :=
  let tcIds := toolCallIds msgs
  let trIds := toolResponseIds msgs
  msgs.foldl (fun acc m =>
    if m.role == "tool" && strOptTruthy m.tool_call_id then
      if tcIds.contains (m.tool_call_id.getD "") then acc ++ [m] else acc
    else if m.role == "assistant" && m.tool_calls.isSome then
      let validToolCalls := (m.tool_calls.getD []).filter (fun tc => trIds.contains tc.id)
      if validToolCalls.length != 0 then acc ++ [{ m with tool_calls := some validToolCalls }]
      else if m.content != "" && m.content.trim != "" then acc ++ [{ m with tool_calls := none }]
      else acc
    else acc ++ [m]) []

/-- The working messages a context contributes to the outbound queue
(src/context.js lines 735-745, 761-771): everything when `tag_filter` is
undefined, else only system-role, summary-flagged, or matching-tag
envelopes. -/
def qMsgs (tag_filter : Option String) (c : CtxM) : List Msg :=
  match tag_filter with
  | none => c.msgs.map (·.msg)
  | some tf =>
    (c.msgs.filter (fun m =>
      m.msg.role == "system" || m.opts.summary || m.opts.tag == some tf)).map (·.msg)

/-- One context's contribution to `_createMsgQ`: prompt, then working
messages. -/
def qBlock (tf : Option String) (c : CtxM) : List Msg :=
  promptPart c.prompt ++ qMsgs tf c

/-- `_createMsgQ` (src/context.js lines 722-779, with a falsy `add_tag`) for
a context owned by a task: ancestor blocks root-first, then the own block,
passed through the response-integrity filter. -/
def createMsgQT (t : TaskM) (self : CtxM) (tf : Option String) : List Msg :=
  validateToolResponses ((ctxAncestors t self).flatMap (qBlock tf) ++ qBlock tf self)

/-- Builds the task chain for a root-to-leaf context list: each context gets
its own task spawned under the previous one; returns the leaf task. -/
def attachChain (parent : Option TaskM) : List CtxM → Option TaskM
  | [] => parent
  | c :: rest =>
    attachChain (some (match parent with
      | some p => TaskM.child (some c) p
      | none => TaskM.root (some c))) rest

/-- The ancestor contexts of an optional task. -/
def ancOpt : Option TaskM → List CtxM
  | none => []
  | some t => t.getAncestorContexts

theorem attachChain_ancestors (chain : List CtxM) :
    ∀ (parent : Option TaskM) (t : TaskM), attachChain parent chain = some t →
      t.getAncestorContexts = ancOpt parent ++ chain := by
  induction chain with
  | nil =>
    intro parent t h
    simp only [attachChain] at h
    subst h
    simp [ancOpt]
  | cons c rest ih =>
    intro parent t h
    simp only [attachChain] at h
    have := ih _ t h
    rw [this]
    cases parent with
    | some p => simp [ancOpt, TaskM.getAncestorContexts]
    | none => simp [ancOpt, TaskM.getAncestorContexts]

theorem filter_ne_self (ancs : List CtxM) (self : CtxM) (h : self ∉ ancs) :
    (ancs ++ [self]).filter (fun c => c != self) = ancs := by
  rw [List.filter_append]
  have h1 : ancs.filter (fun c => c != self) = ancs := by
    rw [List.filter_eq_self]
    intro a ha
    simp only [bne_iff_ne, ne_eq]
    intro heq
    exact h (heq ▸ ha)
  have h2 : List.filter (fun c => c != self) [self] = [] := by simp
  rw [h1, h2, List.append_nil]

theorem bind_singleton_map {α β : Type} (l : List α) (f : α → List β) (g : α → β)
    (h : ∀ a ∈ l, f a = [g a]) : l.flatMap f = l.map g := by
  induction l with
  | nil => rfl
  | cons x xs ih =>
    rw [List.flatMap_cons, List.map_cons, h x (List.mem_cons_self x xs),
      ih (fun a ha => h a (List.mem_cons_of_mem x ha))]
    rfl

/-- C7: for every chain of tasks each owning a context, of arbitrary depth,
the message context and the outbound queue list each ancestor context's
system prompt before any descendant context's prompt: both are the
concatenation of per-context blocks in root-to-leaf order, each block led by
that context's prompt; in particular, for contexts holding no system or
summary messages, the message context is exactly the chain's prompts in
root-to-leaf order. -/
theorem prompts_root_to_leaf
    (ancs : List CtxM) (self : CtxM) (t : TaskM)
    (hself : self ∉ ancs)
    (ht : attachChain none (ancs ++ [self]) = some t)
    (tf : Option String) :
    getMsgContextM t self = (ancs ++ [self]).flatMap ctxBlock ∧
    createMsgQT t self tf = validateToolResponses ((ancs ++ [self]).flatMap (qBlock tf)) ∧
    ((∀ c ∈ ancs ++ [self], summariesOf c = [] ∧ c.prompt ≠ "") →
      getMsgContextM t self
        = (ancs ++ [self]).map (fun c => { role := "system", content := c.prompt })) := by
  have hanc : t.getAncestorContexts = ancs ++ [self] := by
    have := attachChain_ancestors (ancs ++ [self]) none t ht
    simpa [ancOpt] using this
  have hfil : ctxAncestors t self = ancs := by
    unfold ctxAncestors
    rw [hanc]
    exact filter_ne_self ancs self hself
  have h1 : getMsgContextM t self = (ancs ++ [self]).flatMap ctxBlock := by
    unfold getMsgContextM
    rw [hfil, List.flatMap_append]
    simp [List.flatMap_cons]
  refine ⟨h1, ?_, ?_⟩
  · unfold createMsgQT
    rw [hfil, List.flatMap_append]
    simp [List.flatMap_cons]
  · intro hpure
    rw [h1]
    apply bind_singleton_map
    intro c hc
    obtain ⟨hsum, hp⟩ := hpure c hc
    unfold ctxBlock
    rw [hsum, promptPart, if_pos (by simpa using hp)]
    simp

/-- The three-level chain of the specification's scenario. -/
def levelAncs : List CtxM := [⟨"Level 0", []⟩, ⟨"Level 1", []⟩]

/-- Its leaf context. -/
def levelSelf : CtxM := ⟨"Level 2", []⟩

/-- Its leaf task. -/
def levelLeafTask : TaskM :=
  TaskM.child (some levelSelf) (TaskM.child (some ⟨"Level 1", []⟩) (TaskM.root (some ⟨"Level 0", []⟩)))

/-- Witness for C7 at the spec's concrete scenario: a three-level hierarchy
with prompts "Level 0"/"Level 1"/"Level 2" aggregates the three system
prompts in exactly that order. -/
theorem prompts_root_to_leaf_witness :
    getMsgContextM levelLeafTask levelSelf =
      [{ role := "system", content := "Level 0" },
       { role := "system", content := "Level 1" },
       { role := "system", content := "Level 2" }] := by
  have h := (prompts_root_to_leaf levelAncs levelSelf levelLeafTask
    (by decide) rfl none).2.2 (by decide)
  simpa [levelAncs, levelSelf] using h

/-! ### Sid session serialization (src/unnamed Sid class)

`Sid.serialize` builds a plain JSON object
`{id, name, prompt, context_id, userData, sessionConfig, context:{tag, msgs,
functions, chat_history}, tm_create}`; `Sid.deserialize` parses it and
reconstructs a root task (a `Sid` is constructed without `spawn_parent`, so
it registers as a root).  `JSON.parse ∘ JSON.stringify` on this plain data is
the identity, with `undefined`-valued optional keys dropped and restored as
`undefined`, which the model captures by `Option` fields; the serialized
record is therefore modelled directly.  `userData` is modelled as a
string-to-string object and `sessionConfig` by its three constructor-set
keys. -/

/-- The session configuration assembled by the `Sid` constructor:
`{token_limit: opt.token_limit, max_depth: opt.max_depth,
max_tool_repetition: opt.max_tool_repetition, ...opt.sessionConfig}`. -/
structure SessionConfigM where
  token_limit : Option Nat := none
  max_depth : Option Nat := none
  max_tool_repetition : Option Nat := none
deriving DecidableEq

/-- The state of a `Sid` root session task relevant to serialization. -/
structure SidM where
  id : String
  name : String
  prompt : String
  context_id : String
  userData : List (String × String)
  sessionConfig : SessionConfigM
  tm_create : Nat
  ctxTag : String
  ctxMsgs : List Env
  ctxFunctions : Option (List String)
  ctxChatHistory : Option String
deriving DecidableEq

/-- The serialized session JSON (after the stringify/parse roundtrip on the
plain object, which is the identity on this data). -/
structure SerializedSid where
  id : String
  name : String
  prompt : String
  context_id : String
  userData : List (String × String)
  sessionConfig : SessionConfigM
  ctxTag : String
  ctxMsgs : List Env
  ctxFunctions : Option (List String)
  ctxChatHistory : Option String
  tm_create : Nat
deriving DecidableEq

/-- JS `a || b` on strings. -/
def jsOrStr (a b : String) : String := if a != "" then a else b

/-- `Sid.prototype.serialize` (src/unnamed/part_000 lines 87-103). -/
def SidM.serialize (s : SidM) : SerializedSid :=
  { id := s.id, name := s.name, prompt := s.prompt, context_id := s.context_id,
    userData := s.userData, sessionConfig := s.sessionConfig,
    ctxTag := s.ctxTag, ctxMsgs := s.ctxMsgs, ctxFunctions := s.ctxFunctions,
    ctxChatHistory := s.ctxChatHistory, tm_create := s.tm_create }

/-- `Sid.deserialize` with the default empty `opt` (src/unnamed/part_000
lines 106-139), composed with the constructor semantics it triggers.  `gen`
supplies the two random identifiers the constructor would mint (a fresh
`context_id` from the store and a fresh context tag), which are used only
when the respective parsed field is falsy.  The fresh task id from `makeId`
and the fresh `Date.now()` are unconditionally overwritten by `parsed.id`
and `parsed.tm_create`, and the parsed context messages are assigned to the
context buffer verbatim (`sid.context._msgs = parsed.context.msgs`). -/
def SidM.deserialize (gen : String × String) (d : SerializedSid) : SidM :=
  let name := jsOrStr d.name "session"
  let prompt := jsOrStr d.prompt ""
  let context_id := jsOrStr d.context_id gen.1
  { id := d.id,
    name := name,
    prompt := prompt,
    context_id := context_id,
    userData := d.userData,
    sessionConfig := d.sessionConfig,
    tm_create := d.tm_create,
    ctxTag := jsOrStr context_id gen.2,
    ctxMsgs := d.ctxMsgs,
    ctxFunctions := d.ctxFunctions,
    ctxChatHistory := d.ctxChatHistory }

/-- C8: deserializing a serialized session reconstructs a root task whose
id, name, prompt, context_id, userData, sessionConfig and creation time
equal those of the original, and whose context carries the raw message
buffer verbatim.  A constructed `Sid` always has a nonempty name (`opt.name
|| 'session'`) and a nonempty `context_id` (generated when absent), which
the hypotheses record. -/
theorem session_serialize_roundtrip (s : SidM) (gen : String × String)
    (hname : s.name ≠ "") (hcid : s.context_id ≠ "") :
    (SidM.deserialize gen s.serialize).id = s.id ∧
    (SidM.deserialize gen s.serialize).name = s.name ∧
    (SidM.deserialize gen s.serialize).prompt = s.prompt ∧
    (SidM.deserialize gen s.serialize).context_id = s.context_id ∧
    (SidM.deserialize gen s.serialize).userData = s.userData ∧
    (SidM.deserialize gen s.serialize).sessionConfig = s.sessionConfig ∧
    (SidM.deserialize gen s.serialize).tm_create = s.tm_create ∧
    (SidM.deserialize gen s.serialize).ctxMsgs = s.ctxMsgs := by
  refine ⟨rfl, ?_, ?_, ?_, rfl, rfl, rfl, rfl⟩
  · simp [SidM.deserialize, SidM.serialize, jsOrStr, hname]
  · by_cases hp : s.prompt = "" <;>
      simp [SidM.deserialize, SidM.serialize, jsOrStr, hp]
  · simp [SidM.deserialize, SidM.serialize, jsOrStr, hcid]

/-- A concrete session for the C8 witness. -/
def sampleSid : SidM :=
  { id := "abc123", name := "session", prompt := "You are a helpful assistant.",
    context_id := "ctx0001", userData := [("k", "v")],
    sessionConfig := { token_limit := some 1000 },
    tm_create := 1700000000000,
    ctxTag := "ctx0001",
    ctxMsgs := [{ msg := { role := "user", content := "Hi" }, replied := 1 }],
    ctxFunctions := none, ctxChatHistory := none }

/-- Witness for C8 at a concrete session. -/
theorem session_serialize_roundtrip_witness :
    (SidM.deserialize ("g1", "g2") sampleSid.serialize).name = sampleSid.name ∧
    (SidM.deserialize ("g1", "g2") sampleSid.serialize).ctxMsgs = sampleSid.ctxMsgs :=
  ⟨(session_serialize_roundtrip sampleSid ("g1", "g2") (by decide) (by decide)).2.1,
   (session_serialize_roundtrip sampleSid ("g1", "g2") (by decide) (by decide)).2.2.2.2.2.2.2⟩

/-! ### Tool-call interpretation (src/context.js lines 1000-1023) -/

/-- JS optional property access `r?.k` on a handler result: a field of an
object value, `undefined` otherwise (string, number, array and null values
have no such own property). -/
def objField (r : Option JsonV) (k : String) : Option JsonV :=
  match r with
  | some (.jobj fields) => fields.lookup k
  | _ => none

/-- JS `a || b` on JSON values; `none` models an absent (`undefined`) value. -/
def jsOrJ (a b : Option JsonV) : Option JsonV :=
  match a with
  | some v => if jTruthy v then some v else b
  | none => b

/-- A resolved tool result `\x7b content, functions \x7d`; `functions` is the
raw pass-through value `result?.functions || null`. -/
structure ToolResult where
  content : String
  functions : Option JsonV := none

/-- The synthetic completion text substituted for a falsy tool-result content
(src/context.js lines 1014-1016). -/
def syntheticToolText (c : Call) : String :=
  "tool call " ++ c.fname ++ " " ++ c.id
    ++ " completed. do not reply. wait for the next msg from the user"

/-- The effective content value `result?.content || result || \x27\x27` of
src/context.js line 1009. -/
def effectiveToolContent (r : Option JsonV) : Option JsonV :=
  jsOrJ (objField r "content") (jsOrJ r (some (.jstr "")))

/-- `interpretAndApplyChanges(call, handler)` (src/context.js lines
1000-1023), given the settled handler result (`none` models a handler that
returned `undefined`): the content falls back along
`result?.content || result || \x27\x27`, a truthy non-string content is
JSON-stringified, a falsy content is replaced by the synthetic completion
text, and `functions` is `result?.functions || null`. -/
def interpretAndApplyChanges (call : Option Call) (result : Option JsonV) : ToolResult :=
  match call with
  | none => { content := "", functions := none }
  | some c =>
    let functions := jsOrJ (objField result "functions") none
    let content :=
      match effectiveToolContent result with
      | some (.jstr s) => if s != "" then s else syntheticToolText c
      | some v => if jTruthy v then stringify v else syntheticToolText c
      | none => syntheticToolText c
    { content := content, functions := functions }

/-- Characters of a string concatenation. -/
theorem string_data_append (a b : String) : (a ++ b).data = a.data ++ b.data := by
  cases a; cases b; rfl

/-- A string with no characters is the empty string. -/
theorem string_eq_empty_of_data (a : String) (h : a.data = []) : a = "" := by
  cases a; subst h; rfl

/-- A concatenation with a nonempty left part is nonempty. -/
theorem string_append_ne_empty_of_left (a b : String) (ha : a ≠ "") : a ++ b ≠ "" := by
  intro h
  have hd := congrArg String.data h
  rw [string_data_append] at hd
  exact ha (string_eq_empty_of_data a (List.append_eq_nil.mp hd).1)

/-- The digit accumulator of `Nat.toDigitsCore` never shrinks. -/
theorem toDigitsCore_length_le (b : Nat) :
    ∀ (fuel n : Nat) (ds : List Char),
      ds.length ≤ (Nat.toDigitsCore b fuel n ds).length := by
  intro fuel
  induction fuel with
  | zero => intro n ds; simp [Nat.toDigitsCore]
  | succ fuel ih =>
    intro n ds
    simp only [Nat.toDigitsCore]
    by_cases h : n / b = 0
    · simp [h]
    · simpa [h] using Nat.le_trans (by simp) (ih (n / b) (Nat.digitChar (n % b) :: ds))

/-- `Nat.toDigits` produces at least one digit. -/
theorem toDigits_ne_nil (b n : Nat) : Nat.toDigits b n ≠ [] := by
  unfold Nat.toDigits
  simp only [Nat.toDigitsCore]
  by_cases h : n / b = 0
  · simp [h]
  · simp only [if_neg h]
    intro he
    have hl := toDigitsCore_length_le b n (n / b) [Nat.digitChar (n % b)]
    rw [he] at hl
    simp at hl

/-- The decimal rendering of a natural number is nonempty. -/
theorem natRepr_ne_empty (n : Nat) : Nat.repr n ≠ "" := by
  intro h
  have hd := congrArg String.data h
  simp only [Nat.repr, List.asString] at hd
  exact toDigits_ne_nil 10 n hd

/-- The decimal rendering of an integer is nonempty. -/
theorem intToString_ne_empty (n : Int) : toString n ≠ "" := by
  cases n with
  | ofNat m => exact natRepr_ne_empty m
  | negSucc m =>
    exact string_append_ne_empty_of_left "-" (toString (m + 1)) (by decide)

/-- `JSON.stringify` never yields the empty string. -/
theorem stringify_ne_empty (v : JsonV) : stringify v ≠ "" := by
  match v with
  | .jnull => decide
  | .jbool true => decide
  | .jbool false => decide
  | .jnum n => exact intToString_ne_empty n
  | .jstr s =>
    simp only [stringify]
    exact string_append_ne_empty_of_left "\"" (jsonEscape s ++ "\"") (by decide)
  | .jarr xs =>
    simp only [stringify]
    exact string_append_ne_empty_of_left "[" (stringifyItems xs ++ "]") (by decide)
  | .jobj fs =>
    simp only [stringify]
    exact string_append_ne_empty_of_left "\x7b" (stringifyFields fs ++ "\x7d") (by decide)

/-- The synthetic completion text is nonempty. -/
theorem syntheticToolText_ne_empty (c : Call) : syntheticToolText c ≠ "" := by
  unfold syntheticToolText
  exact string_append_ne_empty_of_left "tool call " _ (by decide)

/-- The content computed by `interpretAndApplyChanges` for a present call, as
a function of the effective content value. -/
theorem interpretAndApplyChanges_content (c : Call) (r : Option JsonV) :
    (interpretAndApplyChanges (some c) r).content =
      match effectiveToolContent r with
      | some (.jstr s) => if s != "" then s else syntheticToolText c
      | some v => if jTruthy v then stringify v else syntheticToolText c
      | none => syntheticToolText c := rfl

/-- C10: for every executed tool call (the call object is present) the
tool-role content handed back to the model round is never empty: a falsy
effective result content is replaced by the synthetic completion text, a
truthy non-string content is JSON-stringified, and a nonempty string content
is kept as is. -/
theorem tool_result_content_never_empty (c : Call) (r : Option JsonV) :
    (interpretAndApplyChanges (some c) r).content ≠ "" ∧
    (∀ v, effectiveToolContent r = some v →
      (jTruthy v = false →
        (interpretAndApplyChanges (some c) r).content = syntheticToolText c) ∧
      (∀ s, v = JsonV.jstr s → s ≠ "" →
        (interpretAndApplyChanges (some c) r).content = s) ∧
      (jTruthy v = true → (∀ s, v ≠ JsonV.jstr s) →
        (interpretAndApplyChanges (some c) r).content = stringify v)) := by
  have hc := interpretAndApplyChanges_content c r
  cases hv : effectiveToolContent r with
  | none =>
    rw [hv] at hc
    simp only [] at hc
    exact ⟨by rw [hc]; exact syntheticToolText_ne_empty c, fun v h => Option.noConfusion h⟩
  | some v =>
    rw [hv] at hc
    refine ⟨?_, ?_⟩
    · cases v with
      | jstr s =>
        simp only [] at hc
        by_cases hs : s = ""
        · rw [hc, if_neg (by simp [hs])]
          exact syntheticToolText_ne_empty c
        · rw [hc, if_pos (by simp [hs])]
          exact hs
      | jnull =>
        simp only [] at hc
        rw [hc, if_neg (by decide)]
        exact syntheticToolText_ne_empty c
      | jbool b =>
        cases b with
        | false =>
          simp only [] at hc
          rw [hc, if_neg (by decide)]; exact syntheticToolText_ne_empty c
        | true =>
          simp only [] at hc
          rw [hc, if_pos (by decide)]; exact stringify_ne_empty _
      | jnum n =>
        simp only [] at hc
        by_cases hn : jTruthy (JsonV.jnum n) = true
        · rw [hc, if_pos hn]; exact stringify_ne_empty _
        · rw [hc, if_neg hn]; exact syntheticToolText_ne_empty c
      | jarr xs =>
        simp only [] at hc
        rw [hc, if_pos (show jTruthy (JsonV.jarr xs) = true from rfl)]
        exact stringify_ne_empty _
      | jobj fs =>
        simp only [] at hc
        rw [hc, if_pos (show jTruthy (JsonV.jobj fs) = true from rfl)]
        exact stringify_ne_empty _
    · intro w hw
      obtain rfl := Option.some.inj hw
      refine ⟨?_, ?_, ?_⟩
      · intro hfal
        cases v with
        | jstr s =>
          simp only [] at hc
          have hs : s = "" := by simpa [jTruthy] using hfal
          rw [hc, if_neg (by simp [hs])]
        | jnull =>
          simp only [] at hc
          rw [hc, if_neg (by decide)]
        | jbool b => cases b with
          | false =>
            simp only [] at hc
            rw [hc, if_neg (by decide)]
          | true => cases hfal
        | jnum n =>
          simp only [] at hc
          rw [hc, if_neg (by simp [hfal])]
        | jarr xs => cases hfal
        | jobj fs => cases hfal
      · intro s hs hne
        subst hs
        simp only [] at hc
        rw [hc, if_pos (by simp [hne])]
      · intro htr hnstr
        cases v with
        | jstr s => exact absurd rfl (hnstr s)
        | jnull => cases htr
        | jbool b => cases b with
          | false => cases htr
          | true =>
            simp only [] at hc
            rw [hc, if_pos (by decide)]
        | jnum n =>
          simp only [] at hc
          rw [hc, if_pos htr]
        | jarr xs =>
          simp only [] at hc
          rw [hc, if_pos (show jTruthy (JsonV.jarr xs) = true from rfl)]
        | jobj fs =>
          simp only [] at hc
          rw [hc, if_pos (show jTruthy (JsonV.jobj fs) = true from rfl)]

/-- A concrete call for the C10 witness. -/
def c10Call : Call := { id := "call_1", fname := "lookup", args := "\x7b\x7d" }

/-- Witness for C10 at concrete handler results: a handler that returns
`undefined` yields the synthetic completion text, and an object result whose
content is a (truthy) empty array is JSON-stringified. -/
theorem tool_result_content_never_empty_witness :
    (interpretAndApplyChanges (some c10Call) none).content = syntheticToolText c10Call ∧
    (interpretAndApplyChanges (some c10Call)
      (some (.jobj [("content", .jarr [])]))).content = stringify (JsonV.jarr []) :=
  ⟨(((tool_result_content_never_empty c10Call none).2 (JsonV.jstr "")
        rfl).1 (by decide)),
   (((tool_result_content_never_empty c10Call
        (some (.jobj [("content", .jarr [])]))).2 (JsonV.jarr [])
        rfl).2.2 (by decide) (fun s h => by cases h))⟩

/-! ### In-flight tool-call tracking and the tool round
(src/context.js lines 159-165, 602-667, 921-951) -/

/-- `_getToolCallKey` (src/context.js lines 602-604). -/
def getToolCallKey (c : Call) : String :=
  c.fname ++ ":" ++ c.args

/-- `_isDuplicateToolCall` (src/context.js lines 606-609): `has` of the key
on the `_active_tool_calls` map, modelled by its key set. -/
def isDuplicateToolCall (active : List String) (c : Call) : Bool :=
  decide (getToolCallKey c ∈ active)

/-- `_trackActiveToolCall` (src/context.js lines 611-619): `Map.set` keyed by
the call key; on the modelled key set this is insert-if-absent. -/
def trackActiveToolCall (active : List String) (c : Call) : List String :=
  if getToolCallKey c ∈ active then active else getToolCallKey c :: active

/-- `_completeActiveToolCall` (src/context.js lines 621-627): `Map.delete`
keyed by the call key (the modelled key set never holds a key twice, so
erasing one occurrence is full deletion). -/
def completeActiveToolCall (active : List String) (c : Call) : List String :=
  active.erase (getToolCallKey c)

/-- `_trackToolCall` (src/context.js lines 159-165): push the tool name on
`_tool_call_sequence` and trim to the last `max_tool_repetition` entries
(`slice(-k)`) once the sequence exceeds twice that bound. -/
def trackToolCall (st : CtxState) (toolName : String) : CtxState :=
  let seq := st.tool_call_sequence ++ [toolName]
  if seq.length > st.max_tool_repetition * 2 then
    { st with tool_call_sequence := seq.drop (seq.length - st.max_tool_repetition) }
  else { st with tool_call_sequence := seq }

/-- The duplicate notice (src/context.js lines 928-931). -/
def dupNotice (c : Call) : String :=
  "Duplicate call detected. An identical \"" ++ c.fname
    ++ "\" tool call with the same arguments is already running."

/-- One entry of `toolCallsWithResults` (src/context.js line 920). -/
structure MarkedCall where
  call : Call
  result : Option ToolResult := none
  isDuplicate : Bool := false

/-- The marking loop over a round of tool calls (src/context.js lines
921-938): track the name in the repetition sequence, flag a duplicate with
the notice, otherwise mark the call active. -/
def markCallsGo (st : CtxState) (calls : List Call) (acc : List MarkedCall) :
    CtxState × List MarkedCall :=
  match calls with
  | [] => (st, acc)
  | c :: rest =>
    let st1 := trackToolCall st c.fname
    if isDuplicateToolCall st1.active_tool_calls c then
      markCallsGo st1 rest
        (acc ++ [{ call := c, result := some { content := dupNotice c }, isDuplicate := true }])
    else
      markCallsGo
        { st1 with active_tool_calls := trackActiveToolCall st1.active_tool_calls c }
        rest (acc ++ [{ call := c, isDuplicate := false }])

/-- The marking loop started on an empty accumulator. -/
def markCalls (st : CtxState) (calls : List Call) : CtxState × List MarkedCall :=
  markCallsGo st calls []

/-- The effective per-call timeout `customTimeoutMs || 5000`
(src/context.js line 630). -/
def effectiveTimeout (customTimeoutMs : Option Nat) : Nat :=
  match customTimeoutMs with
  | some t => if t != 0 then t else 5000
  | none => 5000

/-- JS rendering of the number `ms / 1000`: the integer part, then the
fractional thousandth digits with trailing zeros removed (the shortest
round-trip decimal of the quotient at the modelled magnitudes). -/
def msOver1000Str (ms : Nat) : String :=
  let frac := ms % 1000
  if frac == 0 then toString (ms / 1000)
  else
    let d := Nat.toDigits 10 frac
    let padded := List.replicate (3 - d.length) '0' ++ d
    toString (ms / 1000) ++ "."
      ++ String.mk ((padded.reverse.dropWhile (fun ch => ch == '0')).reverse)

/-- The synthetic timeout notice (src/context.js lines 640-643). -/
def timeoutNotice (fname : String) (timeoutMs : Nat) : String :=
  "Tool call \"" ++ fname ++ "\" timed out after " ++ msOver1000Str timeoutMs ++ " seconds."

/-- The notice of a handler that throws (src/context.js lines 656-660). -/
def toolErrorNotice (fname : String) (emsg : String) : String :=
  "Tool call \"" ++ fname ++ "\" failed with error: " ++ emsg

/-- `_executeToolCallWithTimeout` (src/context.js lines 629-667) given the
settled behaviour of the handler invocation relative to the effective
timeout: a hang resolves with the timeout notice, a thrown error with the
error notice, and a result through `interpretAndApplyChanges`; the promise
always resolves. -/
def executeToolCallWithTimeout (c : Call) (behavior : HandlerBehavior)
    (customTimeoutMs : Option Nat) : ToolResult :=
  match behavior with
  | .hang => { content := timeoutNotice c.fname (effectiveTimeout customTimeoutMs) }
  | .raise m => { content := toolErrorNotice c.fname m }
  | .ret r => interpretAndApplyChanges (some c) r

/-- The in-place result update
`toolCallsWithResults.find(item => item.call.id === call.id).result = result`
(src/context.js lines 945-946): the first entry with the matching call id
receives the result. -/
def updateResultById (ms : List MarkedCall) (cid : String) (r : ToolResult) :
    List MarkedCall :=
  match ms with
  | [] => []
  | m :: rest =>
    if m.call.id == cid then { m with result := some r } :: rest
    else m :: updateResultById rest cid r

/-- The execution loop (src/context.js lines 940-951): duplicates are
skipped; every other entry invokes the handler through
`_executeToolCallWithTimeout`, stores the result on the entry carrying its
call id and — in the `finally` — clears its active marker. -/
def execCallsGo (runH : String → String → HandlerBehavior) (timeout : Option Nat) :
    List MarkedCall → List MarkedCall → List String → List Ev →
    List MarkedCall × List String × List Ev
  | [], all, active, evs => (all, active, evs)
  | m :: rest, all, active, evs =>
    if m.isDuplicate then execCallsGo runH timeout rest all active evs
    else
      let r := executeToolCallWithTimeout m.call (runH m.call.fname m.call.args) timeout
      execCallsGo runH timeout rest (updateResultById all m.call.id r)
        (completeActiveToolCall active m.call)
        (evs ++ [Ev.handlerInvoke m.call.fname m.call.args])

/-- The execution loop over the whole marked round. -/
def execCalls (runH : String → String → HandlerBehavior) (timeout : Option Nat)
    (marked : List MarkedCall) (active : List String) :
    List MarkedCall × List String × List Ev :=
  execCallsGo runH timeout marked marked active []

/-- `_trackToolCall` leaves the active-call set untouched. -/
theorem trackToolCall_active (st : CtxState) (n : String) :
    (trackToolCall st n).active_tool_calls = st.active_tool_calls := by
  simp only [trackToolCall]
  split <;> rfl

/-- Marking a call active preserves every present key. -/
theorem mem_trackActiveToolCall (active : List String) (c : Call) (k : String)
    (hk : k ∈ active) : k ∈ trackActiveToolCall active c := by
  unfold trackActiveToolCall
  split
  · exact hk
  · exact List.mem_cons_of_mem _ hk

/-- The marking loop only grows the active-call set. -/
theorem markCallsGo_active_mono (calls : List Call) :
    ∀ (st : CtxState) (acc : List MarkedCall) (k : String),
      k ∈ st.active_tool_calls → k ∈ (markCallsGo st calls acc).1.active_tool_calls := by
  induction calls with
  | nil => intro st acc k hk; exact hk
  | cons c rest ih =>
    intro st acc k hk
    simp only [markCallsGo]
    split
    · exact ih _ _ k (by rw [trackToolCall_active]; exact hk)
    · exact ih _ _ k (mem_trackActiveToolCall _ _ _ (by rw [trackToolCall_active]; exact hk))

/-- The marking loop emits exactly the round calls, in order. -/
theorem markCallsGo_calls (calls : List Call) :
    ∀ (st : CtxState) (acc : List MarkedCall),
      (markCallsGo st calls acc).2.map MarkedCall.call = acc.map MarkedCall.call ++ calls := by
  induction calls with
  | nil => intro st acc; simp [markCallsGo]
  | cons c rest ih =>
    intro st acc
    simp only [markCallsGo]
    split
    · rw [ih]; simp
    · rw [ih]; simp

/-- Every marked entry whose key belongs to a set of entry-time active keys
is flagged duplicate and carries the duplicate notice. -/
theorem markCallsGo_dup_flagged (calls : List Call) :
    ∀ (act : List String) (st : CtxState) (acc : List MarkedCall),
      (∀ k, k ∈ act → k ∈ st.active_tool_calls) →
      (∀ m ∈ acc, getToolCallKey m.call ∈ act →
        m.isDuplicate = true ∧ m.result = some { content := dupNotice m.call }) →
      ∀ m ∈ (markCallsGo st calls acc).2, getToolCallKey m.call ∈ act →
        m.isDuplicate = true ∧ m.result = some { content := dupNotice m.call } := by
  induction calls with
  | nil => intro act st acc hsub hacc m hm hk; exact hacc m hm hk
  | cons c rest ih =>
    intro act st acc hsub hacc m hm hk
    simp only [markCallsGo] at hm
    by_cases hd : isDuplicateToolCall (trackToolCall st c.fname).active_tool_calls c = true
    · rw [if_pos hd] at hm
      refine ih act _ _ (fun k hka => ?_) (fun m2 hm2 hk2 => ?_) m hm hk
      · rw [trackToolCall_active]; exact hsub k hka
      · rcases List.mem_append.mp hm2 with h2 | h2
        · exact hacc m2 h2 hk2
        · simp only [List.mem_singleton] at h2
          subst h2
          exact ⟨rfl, rfl⟩
    · rw [if_neg hd] at hm
      refine ih act _ _ (fun k hka => ?_) (fun m2 hm2 hk2 => ?_) m hm hk
      · exact mem_trackActiveToolCall _ _ _ (by rw [trackToolCall_active]; exact hsub k hka)
      · rcases List.mem_append.mp hm2 with h2 | h2
        · exact hacc m2 h2 hk2
        · simp only [List.mem_singleton] at h2
          subst h2
          exfalso
          apply hd
          simp only [isDuplicateToolCall]
          rw [trackToolCall_active]
          exact decide_eq_true (hsub _ hk2)

/-- Every event of the execution loop is either inherited or the handler
invocation of a non-duplicate pending entry. -/
theorem execCallsGo_events (runH : String → String → HandlerBehavior)
    (timeout : Option Nat) (pending : List MarkedCall) :
    ∀ (all : List MarkedCall) (active : List String) (evs : List Ev),
      ∀ e ∈ (execCallsGo runH timeout pending all active evs).2.2,
        e ∈ evs ∨ ∃ m, m ∈ pending ∧ m.isDuplicate = false ∧
          e = Ev.handlerInvoke m.call.fname m.call.args := by
  induction pending with
  | nil => intro all active evs e he; exact Or.inl he
  | cons m rest ih =>
    intro all active evs e he
    simp only [execCallsGo] at he
    by_cases hd : m.isDuplicate = true
    · rw [if_pos hd] at he
      rcases ih _ _ _ e he with h | ⟨m2, hm2, hnd, hev⟩
      · exact Or.inl h
      · exact Or.inr ⟨m2, List.mem_cons_of_mem _ hm2, hnd, hev⟩
    · rw [if_neg hd] at he
      rcases ih _ _ _ e he with h | ⟨m2, hm2, hnd, hev⟩
      · rcases List.mem_append.mp h with h1 | h1
        · exact Or.inl h1
        · simp only [List.mem_singleton] at h1
          exact Or.inr ⟨m, List.mem_cons_self m rest, (by simpa using hd), h1⟩
      · exact Or.inr ⟨m2, List.mem_cons_of_mem _ hm2, hnd, hev⟩

/-- C3: in a tool round started while some calls are active, the round of
marked entries lists exactly the round calls; every entry whose
name-plus-arguments key is already active is flagged duplicate and resolves
immediately with the duplicate notice; and the execution loop never invokes
the handler for any call whose key was active at entry — in particular the
running original is never executed a second time. -/
theorem duplicate_tool_call_never_executed (st : CtxState) (calls : List Call)
    (runH : String → String → HandlerBehavior) (timeout : Option Nat) :
    ((markCalls st calls).2.map MarkedCall.call = calls) ∧
    (∀ m ∈ (markCalls st calls).2, getToolCallKey m.call ∈ st.active_tool_calls →
      m.isDuplicate = true ∧ m.result = some { content := dupNotice m.call }) ∧
    (∀ f a, Ev.handlerInvoke f a ∈
        (execCalls runH timeout (markCalls st calls).2
          (markCalls st calls).1.active_tool_calls).2.2 →
      (f ++ ":" ++ a) ∉ st.active_tool_calls) := by
  refine ⟨?_, ?_, ?_⟩
  · simpa using markCallsGo_calls calls st []
  · exact markCallsGo_dup_flagged calls st.active_tool_calls st []
      (fun k hk => hk) (fun m hm => absurd hm (List.not_mem_nil m))
  · intro f a he hk
    rcases execCallsGo_events runH timeout (markCalls st calls).2 _ _ _ _ he with
      h | ⟨m, hm, hnd, hev⟩
    · exact absurd h (List.not_mem_nil _)
    · injection hev with h1 h2
      have hkey : getToolCallKey m.call ∈ st.active_tool_calls := by
        simp only [getToolCallKey]
        rw [← h1, ← h2]
        exact hk
      have hflag := (markCallsGo_dup_flagged calls st.active_tool_calls st []
        (fun k hk2 => hk2) (fun m2 hm2 => absurd hm2 (List.not_mem_nil m2))) m hm hkey
      rw [hflag.1] at hnd
      exact Bool.noConfusion hnd

/-- The context state of the C3 witness: one active call `lookup` running on
the raw argument string of an empty object. -/
def c3State : CtxState := { active_tool_calls := ["lookup:\x7b\x7d"] }

/-- The round of the C3 witness: the identical call again, and a fresh one. -/
def c3Calls : List Call :=
  [{ id := "call_a", fname := "lookup", args := "\x7b\x7d" },
   { id := "call_b", fname := "fetch", args := "\x7b\x7d" }]

/-- The handler behaviour of the C3 witness. -/
def c3RunH : String → String → HandlerBehavior := fun _ _ => .ret (some (.jstr "ok"))

/-- Witness for C3 at the concrete round: the marked round covers the calls
and the handler is never invoked for the already-running `lookup` call. -/
theorem duplicate_tool_call_never_executed_witness :
    ((markCalls c3State c3Calls).2.map MarkedCall.call = c3Calls) ∧
    Ev.handlerInvoke "lookup" "\x7b\x7d" ∉
      (execCalls c3RunH none (markCalls c3State c3Calls).2
        (markCalls c3State c3Calls).1.active_tool_calls).2.2 := by
  refine ⟨(duplicate_tool_call_never_executed c3State c3Calls c3RunH none).1,
    fun hmem => ?_⟩
  exact (duplicate_tool_call_never_executed c3State c3Calls c3RunH none).2.2
    "lookup" "\x7b\x7d" hmem (by decide)

/-- The execution loop on a single fresh (non-duplicate) entry: the handler
runs, the result lands on the entry, the marker is erased and the invocation
is logged. -/
theorem execCalls_single (runH : String → String → HandlerBehavior) (timeout : Option Nat)
    (c : Call) (active : List String) :
    execCalls runH timeout [{ call := c, isDuplicate := false }] active =
      ([{ call := c,
          result := some (executeToolCallWithTimeout c (runH c.fname c.args) timeout),
          isDuplicate := false }],
       completeActiveToolCall active c,
       [Ev.handlerInvoke c.fname c.args]) := by
  simp [execCalls, execCallsGo, updateResultById]

/-- C4: a tool call whose handler does not settle within the effective
timeout (default 5000 ms, overridable per message) resolves with the
synthetic timeout notice; the round records that notice as the call result,
and the finally-clause erases the active marker, so the key is afterwards
absent and an identical call is no longer reported as a duplicate. -/
theorem tool_timeout_resolves_and_clears (c : Call) (custom : Option Nat)
    (active : List String) (runH : String → String → HandlerBehavior)
    (hhang : runH c.fname c.args = HandlerBehavior.hang)
    (honce : active.count (getToolCallKey c) ≤ 1) :
    executeToolCallWithTimeout c (runH c.fname c.args) custom =
      { content := timeoutNotice c.fname (effectiveTimeout custom), functions := none } ∧
    effectiveTimeout none = 5000 ∧
    (∀ t, t ≠ 0 → effectiveTimeout (some t) = t) ∧
    (execCalls runH custom [{ call := c, isDuplicate := false }] active).1 =
      [{ call := c,
         result := some { content := timeoutNotice c.fname (effectiveTimeout custom),
                          functions := none },
         isDuplicate := false }] ∧
    getToolCallKey c ∉ (execCalls runH custom [{ call := c, isDuplicate := false }] active).2.1 ∧
    isDuplicateToolCall
      (execCalls runH custom [{ call := c, isDuplicate := false }] active).2.1 c = false := by
  have h1 : executeToolCallWithTimeout c (runH c.fname c.args) custom =
      { content := timeoutNotice c.fname (effectiveTimeout custom), functions := none } := by
    rw [hhang]
    rfl
  have hx := execCalls_single runH custom c active
  have hclear : getToolCallKey c ∉ completeActiveToolCall active c := by
    have hcnt := List.count_erase_self (getToolCallKey c) active
    have h0 : (active.erase (getToolCallKey c)).count (getToolCallKey c) = 0 := by omega
    exact List.count_eq_zero.mp h0
  refine ⟨h1, rfl, ?_, ?_, ?_, ?_⟩
  · intro t ht; simp [effectiveTimeout, ht]
  · rw [hx, h1]
  · rw [hx]; exact hclear
  · rw [hx]
    simp only [isDuplicateToolCall]
    exact decide_eq_false hclear

/-- The call of the C4 witness. -/
def c4Call : Call := { id := "call_t", fname := "slowTool", args := "\x7b\x7d" }

/-- Witness for C4 at a concrete hanging call with a custom 7000 ms timeout:
the resolved content is the timeout notice and the key is no longer reported
as a duplicate after the round. -/
theorem tool_timeout_resolves_and_clears_witness :
    executeToolCallWithTimeout c4Call HandlerBehavior.hang (some 7000) =
      { content := timeoutNotice "slowTool" 7000, functions := none } ∧
    isDuplicateToolCall
      (execCalls (fun _ _ => HandlerBehavior.hang) (some 7000)
        [{ call := c4Call, isDuplicate := false }] [getToolCallKey c4Call]).2.1 c4Call
      = false := by
  have h := tool_timeout_resolves_and_clears c4Call (some 7000) [getToolCallKey c4Call]
    (fun _ _ => HandlerBehavior.hang) rfl (by decide)
  exact ⟨h.1, h.2.2.2.2.2⟩

/-! ### The sendMessage entry guard (src/context.js lines 781-795) -/

/-- The settled outcome of a `sendMessage` call at the dispatch level: the
`undefined` return of the empty-content guard, a promise parked on the
sequential queue, or the value of `_sendMessageInternal`. -/
inductive SendResult where
  | undef
  | queuedSeq
  | internalResult (content : String)

/-- `sendMessage` (src/context.js lines 781-795) with the behaviour of
`_sendMessageInternal` abstracted as `internal`: a falsy content —
`undefined`/`null` (modelled `none`) or the empty string — is rejected by a
`console.error` return before anything else runs; otherwise a non-recursive
call during sequential processing is parked on the sequential queue, and
every other call is delegated to the internal pipeline. -/
def sendMessageM
    (internal : String → String → Option (List String) → Opts → CtxState →
      CtxState × List Ev × SendResult)
    (st : CtxState) (role : String) (content : Option String)
    (functions : Option (List String)) (opts : Opts) :
    CtxState × List Ev × SendResult :=
  if !strOptTruthy content then
    (st, [Ev.errorLog "trying to send a message with no content"], SendResult.undef)
  else
    let c := content.getD ""
    if st.sequential_mode && st.processing_sequential && !opts.recursive_depth.isSome then
      ({ st with sequential_queue := st.sequential_queue
          ++ [{ role := role, content := c, functions := functions, opts := opts }] },
       [], SendResult.queuedSeq)
    else internal role c functions opts st

/-- C9: for every `sendMessage` call with empty content (`undefined`, `null`
or the empty string) and any behaviour of the internal pipeline, the call is
rejected up front: the context state — in particular the message buffer — is
unchanged, the only observable interaction is the `console.error` log (so no
backend request and no handler invocation happens), and the caller receives
the `undefined` return. -/
theorem empty_send_message_rejected
    (internal : String → String → Option (List String) → Opts → CtxState →
      CtxState × List Ev × SendResult)
    (st : CtxState) (role : String) (content : Option String)
    (functions : Option (List String)) (opts : Opts)
    (h : strOptTruthy content = false) :
    sendMessageM internal st role content functions opts =
      (st, [Ev.errorLog "trying to send a message with no content"], SendResult.undef) ∧
    (sendMessageM internal st role content functions opts).1.msgs = st.msgs ∧
    (∀ q, Ev.backendSend q ∉ (sendMessageM internal st role content functions opts).2.1) ∧
    (∀ f a, Ev.handlerInvoke f a ∉ (sendMessageM internal st role content functions opts).2.1) := by
  have he : sendMessageM internal st role content functions opts =
      (st, [Ev.errorLog "trying to send a message with no content"], SendResult.undef) := by
    unfold sendMessageM
    rw [h]
    rfl
  refine ⟨he, by rw [he], ?_, ?_⟩
  · intro q hq
    rw [he] at hq
    simp at hq
  · intro f a hq
    rw [he] at hq
    simp at hq

/-- A trivial internal pipeline for the C9 witness. -/
def c9Internal : String → String → Option (List String) → Opts → CtxState →
    CtxState × List Ev × SendResult :=
  fun _ _ _ _ s => (s, [], SendResult.internalResult "")

/-- A concrete context state for the C9 witness. -/
def c9State : CtxState := { msgs := [{ msg := { role := "user", content := "hello" } }] }

/-- Witness for C9 at a concrete state and both empty-content shapes. -/
theorem empty_send_message_rejected_witness :
    sendMessageM c9Internal c9State "user" none none {} =
      (c9State, [Ev.errorLog "trying to send a message with no content"], SendResult.undef) ∧
    sendMessageM c9Internal c9State "user" (some "") none {} =
      (c9State, [Ev.errorLog "trying to send a message with no content"], SendResult.undef) :=
  ⟨(empty_send_message_rejected c9Internal c9State "user" none none {} (by decide)).1,
   (empty_send_message_rejected c9Internal c9State "user" (some "") none {} (by decide)).1⟩

end Saico
